import Mathlib

/-!
# Verification of the MoMo ETL core (clean_normalize, categorize, parse_xml, run)

Shallow embedding of the transform stage of the MoMo_app repository:
the field normalizer (`src/etl/clean_normalize.py`), the categorizer
(`src/etl/categorize.py`), the record discoverers
(`src/dsa/parse_xml.py`, `src/etl/parse_xml.py`) and the batch
orchestrator (`src/etl/run.py`).

Modelling conventions:
- Python strings are `List Char` (wrapped in `String` at the interfaces);
  `str.lower`/`str.upper`/`str.strip` are modelled for ASCII, which covers
  every literal appearing in the sources.
- Python floats are modelled as `ℚ`; every arithmetic operation performed
  by the sources on the values reached by the theorems below is exact in
  binary floating point, so the rational model agrees with the float one
  there.
- The regular expressions in the sources are either literal substrings
  (categorizer tables, searched case-insensitively) or the fixed
  digit-group shapes of the phone/amount/date tables; each family is
  embedded by a dedicated matcher with Python `re` semantics
  (`re.match` anchors at the start only, `re.search` scans left to
  right, `re.sub` rewrites every non-overlapping occurrence).
- Exceptions are modelled with `Except`/`Option`: a Python function that
  may raise becomes a function into `Except PyErr _`.
-/

namespace Momo

/-! ## Character-level helpers (models of Python str methods, ASCII range) -/

/-- Whitespace characters recognised by Python `str.strip`, ASCII range. -/
def isSpaceC (c : Char) : Bool :=
  c = ' ' || c = '\t' || c = '\n' || c = '\r' || c = '\x0b' || c = '\x0c'

/-- ASCII decimal digit test (model of the regex class `\d` and of
`str.isdigit` on the ASCII range). -/
def isDigitC (c : Char) : Bool :=
  '0' ≤ c && c ≤ '9'

/-- Model of Python `str.lower` on one ASCII character. -/
def lowerChar (c : Char) : Char :=
  if 'A' ≤ c && c ≤ 'Z' then Char.ofNat (c.toNat + 32) else c

/-- Model of Python `str.upper` on one ASCII character. -/
def upperChar (c : Char) : Char :=
  if 'a' ≤ c && c ≤ 'z' then Char.ofNat (c.toNat - 32) else c

/-- Model of Python `str.lower`. -/
def lowerS (l : List Char) : List Char := l.map lowerChar

/-- Model of Python `str.upper`. -/
def upperS (l : List Char) : List Char := l.map upperChar

/-- Model of Python `str.strip` (left part). -/
def trimStart (l : List Char) : List Char := l.dropWhile isSpaceC

/-- Model of Python `str.strip` (right part). -/
def trimEnd (l : List Char) : List Char := (l.reverse.dropWhile isSpaceC).reverse

/-- Model of Python `str.strip`. -/
def stripS (l : List Char) : List Char := trimEnd (trimStart l)

/-- Model of Python `str.isdigit` (ASCII): nonempty and all digits. -/
def isDigitS (l : List Char) : Bool := !l.isEmpty && l.all isDigitC

/-- Substring occurrence test (Python `pat in s`), scanning start
positions left to right. -/
def isSubL (pat : List Char) : List Char → Bool
  | [] => pat.isEmpty
  | c :: cs => pat.isPrefixOf (c :: cs) || isSubL pat cs

/-- Case-insensitive substring test: model of
`re.search(lit, s, re.IGNORECASE)` for a literal pattern `lit`, and of
Python `lit.lower() in s.lower()`. -/
def substrCI (lit s : List Char) : Bool :=
  isSubL (lowerS lit) (lowerS s)

/-! ## Kernel-computable rational arithmetic

Python float arithmetic on the exact values reached by this file is
modelled in `ℚ`. The runtime `Rat` operations do not reduce inside the
kernel, so the embeddings use the following equivalent forms, each
bridged to the standard operation. -/

/-- Addition on `ℚ` in kernel-reducible form. -/
def qAdd (a b : ℚ) : ℚ := mkRat (a.num * b.den + b.num * a.den) (a.den * b.den)

/-- Division of a rational by a natural number in kernel-reducible form. -/
def qDivNat (a : ℚ) (d : Nat) : ℚ := mkRat a.num (a.den * d)

/-- Comparison `a ≤ b` on `ℚ` in kernel-reducible form. -/
def qLeB (a b : ℚ) : Bool := a.num * b.den ≤ b.num * a.den

/-- Comparison `a < b` on `ℚ` in kernel-reducible form. -/
def qLtB (a b : ℚ) : Bool := a.num * b.den < b.num * a.den

/-- Minimum on `ℚ` in kernel-reducible form (Python `min`). -/
def qMin (a b : ℚ) : ℚ := if qLeB a b then a else b

theorem qAdd_eq (a b : ℚ) : qAdd a b = a + b := by
  have ha : ((a.den : ℚ)) ≠ 0 := Nat.cast_ne_zero.mpr a.den_nz
  have hb : ((b.den : ℚ)) ≠ 0 := Nat.cast_ne_zero.mpr b.den_nz
  unfold qAdd
  rw [Rat.mkRat_eq_div]
  conv_rhs => rw [← Rat.num_div_den a, ← Rat.num_div_den b]
  push_cast
  field_simp

theorem qDivNat_eq (a : ℚ) (d : Nat) : qDivNat a d = a / d := by
  unfold qDivNat
  rcases eq_or_ne d 0 with rfl | hd
  · simp [mkRat]
  · rw [Rat.mkRat_eq_div]
    conv_rhs => rw [← Rat.num_div_den a]
    push_cast
    rw [div_div]

theorem qLeB_iff (a b : ℚ) : qLeB a b = true ↔ a ≤ b := by
  unfold qLeB
  rw [decide_eq_true_eq]
  exact Rat.le_def.symm

theorem qLtB_iff (a b : ℚ) : qLtB a b = true ↔ a < b := by
  unfold qLtB
  rw [decide_eq_true_eq]
  exact Rat.lt_def.symm

theorem qMin_eq (a b : ℚ) : qMin a b = min a b := by
  unfold qMin
  rcases le_or_lt a b with h | h
  · rw [if_pos ((qLeB_iff a b).mpr h), min_eq_left h]
  · rw [if_neg (fun hc => absurd ((qLeB_iff a b).mp hc) (not_le.mpr h)),
      min_eq_right (le_of_lt h)]

/-! ## Phone normalization (`DataCleaner._clean_phone_number`, clean_normalize.py lines 127-144)

The four rewrite rules of `self.phone_patterns` all have source shape
`lit(\d{9})` for a literal `lit` in `["+250", "250", "0", ""]` and
replacement `+250\1`. `re.match` tests the rule at the start of the
string; `re.sub` then rewrites every non-overlapping occurrence in the
whole string. -/

/-- Consume a literal prefix: `dropLit lit s = some rest` iff `s = lit ++ rest`. -/
def dropLit : List Char → List Char → Option (List Char)
  | [], s => some s
  | _ :: _, [] => none
  | a :: as, c :: cs => if c = a then dropLit as cs else none

/-- Consume exactly `n` digit characters, returning them and the rest. -/
def takeDigitsN : Nat → List Char → Option (List Char × List Char)
  | 0, s => some ([], s)
  | _ + 1, [] => none
  | n + 1, c :: cs =>
    if isDigitC c then
      match takeDigitsN n cs with
      | some (g, rest) => some (c :: g, rest)
      | none => none
    else none

/-- The literal characters `+250` (the canonical prefix and the
replacement head of every phone rule). -/
def plus250 : List Char := ['+', '2', '5', '0']

/-- Anchored match of the regex `lit(\d{9})`: the captured nine digits
and the remaining characters, or `none`. Models `re.match` for the
phone rules. -/
def matchLitD9 (lit s : List Char) : Option (List Char × List Char) :=
  match dropLit lit s with
  | some r => takeDigitsN 9 r
  | none => none

/-- Fuelled left-to-right global substitution of `lit(\d{9})` by
`+250\1`: models `re.sub(pattern, r"+250\1", s)`. -/
def subAllF (lit : List Char) : Nat → List Char → List Char
  | _, [] => []
  | 0, s => s
  | fuel + 1, c :: cs =>
    match matchLitD9 lit (c :: cs) with
    | some (g, rest) => plus250 ++ g ++ subAllF lit fuel rest
    | none => c :: subAllF lit fuel cs

/-- Global substitution with sufficient fuel. -/
def subAll (lit s : List Char) : List Char := subAllF lit s.length s

/-- The source literals of `self.phone_patterns`, in table order. -/
def phoneLits : List (List Char) := [plus250, ['2', '5', '0'], ['0'], []]

/-- The loop of `_clean_phone_number`: apply the first rule whose
source pattern matches at the start of the string (then `break`). -/
def applyFirstRule : List (List Char) → List Char → List Char
  | [], s => s
  | lit :: rest, s =>
    if (matchLitD9 lit s).isSome then subAll lit s else applyFirstRule rest s

/-- Final validation `re.match(r"\+250\d{9}", phone)`: an anchored
prefix test only — characters may follow the nine digits. -/
def validPrefix (s : List Char) : Bool := (matchLitD9 plus250 s).isSome

/-- The characters of the lowercase word `unknown`. -/
def unknownLC : List Char := ['u', 'n', 'k', 'n', 'o', 'w', 'n']

/-- The characters of the sentinel `Unknown`. -/
def unknownW : List Char := ['U', 'n', 'k', 'n', 'o', 'w', 'n']

/-- Model of `DataCleaner._clean_phone_number` on characters. -/
def cleanPhoneL (p : List Char) : List Char :=
  if p.isEmpty || (stripS p).isEmpty || lowerS p = unknownLC then unknownW
  else
    let p1 := applyFirstRule phoneLits (stripS p)
    if validPrefix p1 then p1 else unknownW

/-- Model of `DataCleaner._clean_phone_number`. -/
def cleanPhone (s : String) : String := String.mk (cleanPhoneL s.data)

/-- Full-string canonical test used to state C5: the string is exactly
`+250` followed by nine digits. -/
def canonicalFull (s : List Char) : Bool :=
  match matchLitD9 plus250 s with
  | some (_, rest) => rest.isEmpty
  | none => false

/-! ### Structural facts about the phone matchers -/

theorem dropLit_eq : ∀ {lit s r : List Char}, dropLit lit s = some r → s = lit ++ r := by
  intro lit
  induction lit with
  | nil => intro s r h; simp [dropLit] at h; simp [h]
  | cons a as ih =>
    intro s r h
    cases s with
    | nil => simp [dropLit] at h
    | cons c cs =>
      by_cases hca : c = a
      · subst hca
        simp only [dropLit, if_pos rfl] at h
        simpa using ih h
      · simp [dropLit, hca] at h

theorem takeDigitsN_eq : ∀ {n : Nat} {s g r : List Char}, takeDigitsN n s = some (g, r) →
    s = g ++ r ∧ g.length = n ∧ ∀ c ∈ g, isDigitC c = true := by
  intro n
  induction n with
  | zero => intro s g r h; simp [takeDigitsN] at h; simp [h.1, h.2]
  | succ n ih =>
    intro s g r h
    cases s with
    | nil => simp [takeDigitsN] at h
    | cons c cs =>
      simp only [takeDigitsN] at h
      by_cases hd : isDigitC c = true
      · rw [if_pos hd] at h
        cases htd : takeDigitsN n cs with
        | none => rw [htd] at h; simp at h
        | some p =>
          obtain ⟨g0, r0⟩ := p
          rw [htd] at h
          simp only [Option.some.injEq, Prod.mk.injEq] at h
          obtain ⟨hg, hr⟩ := h
          obtain ⟨he, hl, hdig⟩ := ih htd
          subst hg hr
          refine ⟨by simp [he], by simp [hl], ?_⟩
          intro x hx
          rcases List.mem_cons.mp hx with rfl | hx0
          · exact hd
          · exact hdig x hx0
      · rw [if_neg hd] at h; simp at h

theorem matchLitD9_eq {lit s g r : List Char} (h : matchLitD9 lit s = some (g, r)) :
    s = lit ++ g ++ r ∧ g.length = 9 ∧ ∀ c ∈ g, isDigitC c = true := by
  unfold matchLitD9 at h
  cases hdl : dropLit lit s with
  | none => rw [hdl] at h; simp at h
  | some rest =>
    rw [hdl] at h
    obtain ⟨he, hl, hd⟩ := takeDigitsN_eq h
    exact ⟨by rw [dropLit_eq hdl, he, List.append_assoc], hl, hd⟩

/-- Unfolding helper: substitution on the empty string is empty for
any fuel. -/
theorem subAllF_nil (lit : List Char) (fuel : Nat) : subAllF lit fuel [] = [] := by
  cases fuel <;> rfl

/-- The rewrite of the first phone rule is the identity: matched text
`+250` plus nine digits is replaced by itself. -/
theorem subAllF_plus250_id : ∀ (fuel : Nat) (s : List Char), s.length ≤ fuel →
    subAllF plus250 fuel s = s := by
  intro fuel
  induction fuel with
  | zero =>
    intro s hs
    cases s with
    | nil => rfl
    | cons c cs => simp at hs
  | succ fuel ih =>
    intro s hs
    cases s with
    | nil => rfl
    | cons c cs =>
      cases hm : matchLitD9 plus250 (c :: cs) with
      | none => simp only [subAllF, hm]; rw [ih cs (by simpa using Nat.le_of_succ_le_succ hs)]
      | some p =>
        obtain ⟨g, rest⟩ := p
        obtain ⟨he, hl, _⟩ := matchLitD9_eq hm
        have hlen := congrArg List.length he
        simp only [List.length_cons, List.length_append, hl] at hlen
        have hs' : cs.length + 1 ≤ fuel + 1 := by simpa using hs
        have hrest : rest.length ≤ fuel := by
          have h4 : plus250.length = 4 := rfl
          omega
        simp only [subAllF, hm]
        rw [ih rest hrest]
        exact he.symm

theorem subAll_plus250_id (s : List Char) : subAll plus250 s = s :=
  subAllF_plus250_id s.length s (Nat.le_refl _)

/-! ### Edge-whitespace bookkeeping

The value returned by `_clean_phone_number` on the canonical path is
`re.sub` applied to a stripped string; these lemmas show its first and
last characters are not whitespace, so that a second `strip` leaves it
unchanged. -/

/-- All characters of `stripS`, `subAll` and friends that we must track:
a list has no trailing whitespace. -/
def lastNS (l : List Char) : Prop := ∀ c, l.getLast? = some c → isSpaceC c = false

theorem digitC_not_space {c : Char} (h : isDigitC c = true) : isSpaceC c = false := by
  simp only [isSpaceC, Bool.or_eq_false_iff, decide_eq_false_iff_not]
  refine ⟨⟨⟨⟨⟨?_, ?_⟩, ?_⟩, ?_⟩, ?_⟩, ?_⟩ <;> rintro rfl <;> revert h <;> decide

theorem getLast?_cons_of_ne {c : Char} {l : List Char} (h : l ≠ []) :
    (c :: l).getLast? = l.getLast? := by
  cases l with
  | nil => exact absurd rfl h
  | cons b t => exact List.getLast?_cons_cons

theorem getLast?_append_of_ne {a b : List Char} (h : b ≠ []) :
    (a ++ b).getLast? = b.getLast? := by
  rw [List.getLast?_append]
  obtain ⟨c, hc⟩ := Option.isSome_iff_exists.mp (List.getLast?_isSome.mpr h)
  simp [hc]

theorem lastNS_of_cons {c : Char} {l : List Char} (h : lastNS (c :: l)) (hne : l ≠ []) :
    lastNS l := by
  intro x hx
  exact h x (by rw [getLast?_cons_of_ne hne]; exact hx)

theorem subAllF_lastNS (lit : List Char) : ∀ (fuel : Nat) (s : List Char), s ≠ [] →
    s.length ≤ fuel → lastNS s →
    subAllF lit fuel s ≠ [] ∧ lastNS (subAllF lit fuel s) := by
  intro fuel
  induction fuel with
  | zero =>
    intro s hne hs _
    cases s with
    | nil => exact absurd rfl hne
    | cons c cs => simp at hs
  | succ fuel ih =>
    intro s hne hs hNS
    cases s with
    | nil => exact absurd rfl hne
    | cons c cs =>
      cases hm : matchLitD9 lit (c :: cs) with
      | none =>
        simp only [subAllF, hm]
        rcases eq_or_ne cs [] with hcs | hcsne
        · subst hcs
          refine ⟨by simp, ?_⟩
          intro x hx
          rw [subAllF_nil, List.getLast?_singleton] at hx
          exact hNS x (by simp [← hx])
        · obtain ⟨h1, h2⟩ := ih cs hcsne (by simpa using Nat.le_of_succ_le_succ hs)
            (lastNS_of_cons hNS hcsne)
          refine ⟨by simp, ?_⟩
          intro x hx
          rw [getLast?_cons_of_ne h1] at hx
          exact h2 x hx
      | some p =>
        obtain ⟨g, rest⟩ := p
        obtain ⟨he, hl, hdig⟩ := matchLitD9_eq hm
        have hg : g ≠ [] := by intro hgn; rw [hgn] at hl; simp at hl
        rcases eq_or_ne rest [] with hrest | hrne
        · subst hrest
          simp only [subAllF, hm]
          refine ⟨by simp [hg, subAllF_nil], ?_⟩
          intro x hx
          rw [List.append_nil, getLast?_append_of_ne hg] at hx
          exact digitC_not_space (hdig x (List.mem_of_mem_getLast? (by simp [hx])))
        · have hlen := congrArg List.length he
          simp only [List.length_cons, List.length_append, hl] at hlen
          have hs' : cs.length + 1 ≤ fuel + 1 := by simpa using hs
          have hrl : rest.length ≤ fuel := by omega
          have hrNS : lastNS rest := by
            intro x hx
            refine hNS x ?_
            rw [he, getLast?_append_of_ne hrne]
            exact hx
          obtain ⟨h1, h2⟩ := ih rest hrne hrl hrNS
          simp only [subAllF, hm]
          refine ⟨by simp [plus250], ?_⟩
          intro x hx
          rw [getLast?_append_of_ne h1] at hx
          exact h2 x hx

theorem applyFirstRule_lastNS : ∀ (lits : List (List Char)) (s : List Char), s ≠ [] →
    lastNS s → applyFirstRule lits s ≠ [] ∧ lastNS (applyFirstRule lits s) := by
  intro lits
  induction lits with
  | nil => intro s hne hNS; exact ⟨hne, hNS⟩
  | cons lit rest ih =>
    intro s hne hNS
    by_cases hm : (matchLitD9 lit s).isSome = true
    · simp only [applyFirstRule, if_pos hm]
      exact subAllF_lastNS lit s.length s hne (Nat.le_refl _) hNS
    · simp only [applyFirstRule, if_neg hm]
      exact ih s hne hNS

theorem head?_dropWhile_false {p : Char → Bool} : ∀ {l : List Char} {c : Char},
    (l.dropWhile p).head? = some c → p c = false := by
  intro l
  induction l with
  | nil => intro c h; simp [List.dropWhile] at h
  | cons a as ih =>
    intro c h
    rw [List.dropWhile_cons] at h
    by_cases hp : p a = true
    · rw [if_pos hp] at h; exact ih h
    · rw [if_neg hp] at h
      simp only [List.head?_cons, Option.some.injEq] at h
      subst h
      exact Bool.eq_false_iff.mpr hp

theorem head?_of_pref {a b : List Char} {c : Char} (hp : a <+: b) (h : a.head? = some c) :
    b.head? = some c := by
  obtain ⟨t, rfl⟩ := hp
  rw [List.head?_append, h]
  rfl

theorem trimEnd_pref (l : List Char) : trimEnd l <+: l := by
  unfold trimEnd
  have h : (l.reverse.dropWhile isSpaceC) <:+ l.reverse := List.dropWhile_suffix isSpaceC
  have := List.reverse_prefix.mpr h
  simpa using this

theorem stripS_head_false {l : List Char} {c : Char} (h : (stripS l).head? = some c) :
    isSpaceC c = false := by
  unfold stripS at h
  exact head?_dropWhile_false (head?_of_pref (trimEnd_pref (trimStart l)) h)

theorem stripS_lastNS (l : List Char) : lastNS (stripS l) := by
  intro c hc
  unfold stripS trimEnd at hc
  rw [List.getLast?_reverse] at hc
  exact head?_dropWhile_false hc

/-- A string whose first and last characters are not whitespace is a
fixed point of strip. -/
theorem stripS_of_noedge {l : List Char}
    (hh : ∀ c, l.head? = some c → isSpaceC c = false) (hl : lastNS l) : stripS l = l := by
  cases l with
  | nil => rfl
  | cons a as =>
    have ha : isSpaceC a = false := hh a rfl
    unfold stripS trimStart trimEnd
    rw [List.dropWhile_cons, if_neg (by simp [ha])]
    obtain ⟨d, hd⟩ := Option.isSome_iff_exists.mp
      (List.getLast?_isSome.mpr (List.cons_ne_nil a as))
    have hdr : (a :: as).reverse.head? = some d := by rw [List.head?_reverse]; exact hd
    cases hrev : (a :: as).reverse with
    | nil => simp at hrev
    | cons x xs =>
      rw [hrev] at hdr
      simp only [List.head?_cons, Option.some.injEq] at hdr
      subst hdr
      rw [List.dropWhile_cons, if_neg (by simp [hl x hd]), ← hrev, List.reverse_reverse]

/-! ### Behaviour of `_clean_phone_number` -/

theorem validPrefix_shape {y : List Char} (hv : validPrefix y = true) :
    ∃ g r, y = plus250 ++ g ++ r ∧ g.length = 9 ∧ ∀ c ∈ g, isDigitC c = true := by
  unfold validPrefix at hv
  obtain ⟨⟨g, r⟩, hp⟩ := Option.isSome_iff_exists.mp hv
  exact ⟨g, r, matchLitD9_eq hp⟩

theorem lowerS_ne_unknown_of_plus (t : List Char) : lowerS ('+' :: t) ≠ unknownLC := by
  intro h
  simp only [lowerS, List.map_cons, unknownLC, List.cons.injEq] at h
  exact absurd h.1 (by decide)

/-- Any string passing the final prefix validation, with no trailing
whitespace, is a fixed point of `_clean_phone_number`. -/
theorem cleanPhoneL_fix {y : List Char} (hv : validPrefix y = true) (hNS : lastNS y) :
    cleanPhoneL y = y := by
  obtain ⟨g, r, he, hl, hdig⟩ := validPrefix_shape hv
  have hy : y.head? = some '+' := by rw [he]; rfl
  have hstrip : stripS y = y :=
    stripS_of_noedge (fun c hc => by rw [hy] at hc; cases hc; decide) hNS
  have hne : y.isEmpty = false := by rw [he]; rfl
  have hunk : ¬ lowerS y = unknownLC := by
    rw [he]
    exact lowerS_ne_unknown_of_plus _
  have happ : applyFirstRule phoneLits y = y := by
    have hm : (matchLitD9 plus250 y).isSome = true := hv
    simp only [phoneLits, applyFirstRule, if_pos hm]
    exact subAll_plus250_id y
  unfold cleanPhoneL
  rw [if_neg (by simp [hne, hstrip, hunk])]
  simp only [hstrip, happ, if_pos hv]

/-- The range of `_clean_phone_number`: the sentinel, or a string that
passes the prefix validation (and carries no trailing whitespace). -/
theorem cleanPhoneL_range (p : List Char) :
    cleanPhoneL p = unknownW ∨
      (validPrefix (cleanPhoneL p) = true ∧ lastNS (cleanPhoneL p)) := by
  unfold cleanPhoneL
  by_cases hc : (p.isEmpty || (stripS p).isEmpty || decide (lowerS p = unknownLC)) = true
  · left; rw [if_pos hc]
  · rw [if_neg hc]
    by_cases hvp : validPrefix (applyFirstRule phoneLits (stripS p)) = true
    · right
      rw [if_pos hvp]
      have hsne : stripS p ≠ [] := by
        intro hq
        apply hc
        simp [hq]
      exact ⟨hvp, (applyFirstRule_lastNS phoneLits (stripS p) hsne (stripS_lastNS p)).2⟩
    · left; rw [if_neg hvp]

theorem cleanPhoneL_unknown_fix : cleanPhoneL unknownW = unknownW := by decide

/-- Idempotence of the phone normalizer at character level. -/
theorem cleanPhoneL_idem (p : List Char) : cleanPhoneL (cleanPhoneL p) = cleanPhoneL p := by
  rcases cleanPhoneL_range p with h | ⟨hv, hNS⟩
  · rw [h, cleanPhoneL_unknown_fix]
  · exact cleanPhoneL_fix hv hNS

/-! ## Amount normalization (`DataCleaner._clean_amount`, clean_normalize.py lines 100-125)

The five members of `self.amount_patterns` combine a decimal-number
shape `\d{1,3}(?:,\d{3})*(?:\.\d{2})?` (or plain `\d+`) with an
optional case-insensitive literal `RWF`. The matchers below reproduce
Python `re` backtracking: at each start position, alternatives are
tried longest-first (greedy), and `re.search` takes the leftmost
position at which some alternative completes. -/

/-- Case-insensitive literal prefix consumption. -/
def dropLitCI : List Char → List Char → Option (List Char)
  | [], s => some s
  | _ :: _, [] => none
  | a :: as, c :: cs => if lowerChar c = lowerChar a then dropLitCI as cs else none

/-- The literal `RWF` (matched case-insensitively). -/
def rwfLit : List Char := ['r', 'w', 'f']

/-- Skip `\s*` then require the literal `RWF`. -/
def rwfAfter (s : List Char) : Bool :=
  (dropLitCI rwfLit (s.dropWhile isSpaceC)).isSome

/-- Anchored candidates for `\d{1,3}`, in greedy (longest-first)
backtracking order: `(matched, rest)` pairs. -/
def baseRuns : List Char → List (List Char × List Char)
  | c1 :: c2 :: c3 :: r =>
    if isDigitC c1 then
      if isDigitC c2 then
        if isDigitC c3 then
          [([c1, c2, c3], r), ([c1, c2], c3 :: r), ([c1], c2 :: c3 :: r)]
        else [([c1, c2], c3 :: r), ([c1], c2 :: c3 :: r)]
      else [([c1], c2 :: c3 :: r)]
    else []
  | c1 :: c2 :: r =>
    if isDigitC c1 then
      if isDigitC c2 then [([c1, c2], r), ([c1], c2 :: r)] else [([c1], c2 :: r)]
    else []
  | [c1] => if isDigitC c1 then [([c1], [])] else []
  | [] => []

/-- Anchored candidates for `(?:,\d{3})*`, most repetitions first. -/
def commaGroupsF : Nat → List Char → List (List Char × List Char)
  | 0, s => [([], s)]
  | fuel + 1, s =>
    match s with
    | ',' :: d1 :: d2 :: d3 :: r =>
      if isDigitC d1 && isDigitC d2 && isDigitC d3 then
        ((commaGroupsF fuel r).map fun p => (',' :: d1 :: d2 :: d3 :: p.1, p.2)) ++ [([], s)]
      else [([], s)]
    | _ => [([], s)]

/-- Anchored candidates for `(?:,\d{3})*` with sufficient fuel. -/
def commaGroups (s : List Char) : List (List Char × List Char) :=
  commaGroupsF s.length s

/-- Anchored candidates for `(?:\.\d{2})?`, with-fraction first. -/
def fracPart : List Char → List (List Char × List Char)
  | '.' :: d1 :: d2 :: r =>
    if isDigitC d1 && isDigitC d2 then
      [(['.', d1, d2], r), ([], '.' :: d1 :: d2 :: r)]
    else [([], '.' :: d1 :: d2 :: r)]
  | s => [([], s)]

/-- Anchored candidates of the full number shape
`\d{1,3}(?:,\d{3})*(?:\.\d{2})?`, in backtracking preference order. -/
def numCandidates (s : List Char) : List (List Char × List Char) :=
  (baseRuns s).flatMap fun b =>
    (commaGroups b.2).flatMap fun m =>
      (fracPart m.2).map fun f => (b.1 ++ m.1 ++ f.1, f.2)

/-- Model of `re.search`: try the anchored matcher at each start
position, leftmost first, returning the captured group(s). -/
def searchPat {α : Type} (anch : List Char → Option α) : List Char → Option α
  | [] => anch []
  | c :: cs =>
    match anch (c :: cs) with
    | some g => some g
    | none => searchPat anch cs

/-- Anchored matcher of pattern 1, `(num)\s*RWF`. -/
def anchNumRWF (s : List Char) : Option (List Char) :=
  ((numCandidates s).find? fun p => rwfAfter p.2).map fun p => p.1

/-- Anchored matcher of pattern 2, `(num)`. -/
def anchNum (s : List Char) : Option (List Char) :=
  ((numCandidates s).head?).map fun p => p.1

/-- Anchored matcher of pattern 3, `RWF\s*(num)`. -/
def anchRWFNum (s : List Char) : Option (List Char) :=
  match dropLitCI rwfLit s with
  | some r => anchNum (r.dropWhile isSpaceC)
  | none => none

/-- Anchored matcher of pattern 4, `(\d+)\s*RWF`. -/
def anchDplusRWF (s : List Char) : Option (List Char) :=
  let n := (s.takeWhile isDigitC).length
  ((List.range n).reverse.map (· + 1)).findSome? fun k =>
    if rwfAfter (s.drop k) then some (s.take k) else none

/-- Anchored matcher of pattern 5, `RWF\s*(\d+)`. -/
def anchRWFDplus (s : List Char) : Option (List Char) :=
  match dropLitCI rwfLit s with
  | some r =>
    let r1 := r.dropWhile isSpaceC
    let ds := r1.takeWhile isDigitC
    if ds.isEmpty then none else some ds
  | none => none

/-- The five amount patterns in table order (`self.amount_patterns`):
each entry is `re.search` of the pattern, yielding `match.group(1)`. -/
def amountMatchers : List (List Char → Option (List Char)) :=
  [searchPat anchNumRWF, searchPat anchNum, searchPat anchRWFNum,
   searchPat anchDplusRWF, searchPat anchRWFDplus]

/-- The extraction loop of `_clean_amount`: first matching pattern
rewrites `amount_str` to its group 1; no match leaves it unchanged. -/
def firstGroup : List (List Char → Option (List Char)) → List Char → List Char
  | [], s => s
  | m :: ms, s =>
    match m s with
    | some g => g
    | none => firstGroup ms s

/-- Model of Python `str.replace(",", "")`. -/
def removeCommas (l : List Char) : List Char := l.filter fun c => c ≠ ','

/-- Numeric value of a digit string. -/
def digitsVal (l : List Char) : Nat := l.foldl (fun a c => a * 10 + (c.toNat - 48)) 0

/-- Model of `float(Decimal(s))` for finite decimal literals
`[sign] digits [. digits]`: the rational value of the literal. The
special literals accepted by `Decimal` (`Infinity`, `NaN`) have no
rational value and are not modelled — on every string this file
evaluates, none of them occurs. -/
def decParse (l : List Char) : Option ℚ :=
  let sgn : Int × List Char :=
    match l with
    | '-' :: t => (-1, t)
    | '+' :: t => (1, t)
    | _ => (1, l)
  let intd := sgn.2.takeWhile isDigitC
  let r1 := sgn.2.drop intd.length
  match r1 with
  | [] => if intd.isEmpty then none else some (mkRat (sgn.1 * digitsVal intd) 1)
  | '.' :: fr =>
    let frd := fr.takeWhile isDigitC
    if !(fr.drop frd.length).isEmpty then none
    else if intd.isEmpty && frd.isEmpty then none
    else some
      (mkRat (sgn.1 * (digitsVal intd * 10 ^ frd.length + digitsVal frd)) (10 ^ frd.length))
  | _ => none

/-- Model of `DataCleaner._clean_amount` on characters: strip, extract
by the first matching pattern, drop grouping commas, parse as a
decimal; any parse failure yields 0.0. -/
def cleanAmountL (a : List Char) : ℚ :=
  if a.isEmpty then 0
  else
    let s1 := firstGroup amountMatchers (stripS a)
    match decParse (removeCommas s1) with
    | some q => q
    | none => 0

/-- Model of `DataCleaner._clean_amount`. -/
def cleanAmount (s : String) : ℚ := cleanAmountL s.data

/-- Decimal digits of a natural number (fuelled helper). -/
def natDigitsF : Nat → Nat → List Char
  | 0, _ => []
  | fuel + 1, n =>
    if n < 10 then [Char.ofNat (48 + n)]
    else natDigitsF fuel (n / 10) ++ [Char.ofNat (48 + n % 10)]

/-- Decimal digits of a natural number. -/
def natDigits (n : Nat) : List Char := natDigitsF (n + 1) n

/-- Model of CPython `str()` on a float: stated for non-negative
integral values (rendered `<n>.0`), the only values at which the
theorems below evaluate it. -/
def pyFloatStr (q : ℚ) : List Char :=
  if q.den = 1 ∧ 0 ≤ q.num then natDigits q.num.toNat ++ ['.', '0'] else ['?']

/-! ## Timestamp normalization (`DataCleaner._clean_timestamp`, clean_normalize.py lines 146-190)

Python `datetime` values are modelled by `PyDateTime`, a record of
calendar fields carrying the validity invariant that the `datetime`
constructor enforces. The ambient quantities `datetime.now()` and
`datetime.fromtimestamp` (whose result depends on the local timezone)
enter as explicit parameters. `isoformat`/`fromisoformat` are modelled
for naive datetimes (no timezone offset suffix, six-digit fractions),
which covers every value the cleaner produces. -/

/-- Gregorian leap-year rule (as validated by `datetime`). -/
def leapYear (y : Nat) : Bool := (y % 4 = 0 && y % 100 ≠ 0) || y % 400 = 0

/-- Number of days of a month (as validated by `datetime`). -/
def daysInMonth (y m : Nat) : Nat :=
  if m = 2 then (if leapYear y then 29 else 28)
  else if m = 4 ∨ m = 6 ∨ m = 9 ∨ m = 11 then 30
  else 31

/-- The field ranges accepted by the `datetime` constructor. -/
def DTValid (y mo dd hh mi ss uu : Nat) : Prop :=
  1 ≤ y ∧ y ≤ 9999 ∧ 1 ≤ mo ∧ mo ≤ 12 ∧ 1 ≤ dd ∧ dd ≤ daysInMonth y mo ∧
    hh ≤ 23 ∧ mi ≤ 59 ∧ ss ≤ 59 ∧ uu ≤ 999999

instance (y mo dd hh mi ss uu : Nat) : Decidable (DTValid y mo dd hh mi ss uu) := by
  unfold DTValid; infer_instance

/-- Model of a (naive) Python `datetime` value. -/
structure PyDateTime where
  year : Nat
  month : Nat
  day : Nat
  hour : Nat
  minute : Nat
  second : Nat
  micro : Nat
  valid : DTValid year month day hour minute second micro

theorem PyDateTime.ext_iff {a b : PyDateTime} :
    a = b ↔ a.year = b.year ∧ a.month = b.month ∧ a.day = b.day ∧ a.hour = b.hour ∧
      a.minute = b.minute ∧ a.second = b.second ∧ a.micro = b.micro := by
  constructor
  · rintro rfl; exact ⟨rfl, rfl, rfl, rfl, rfl, rfl, rfl⟩
  · rintro ⟨h1, h2, h3, h4, h5, h6, h7⟩
    cases a; cases b
    simp_all

instance : DecidableEq PyDateTime := fun a b =>
  decidable_of_iff
    (a.year = b.year ∧ a.month = b.month ∧ a.day = b.day ∧ a.hour = b.hour ∧
      a.minute = b.minute ∧ a.second = b.second ∧ a.micro = b.micro)
    PyDateTime.ext_iff.symm

/-- Character of a decimal digit. -/
def dchar (n : Nat) : Char := Char.ofNat (48 + n % 10)

/-- Two-digit zero-padded rendering (`%02d`). -/
def pad2 (n : Nat) : List Char := [dchar (n / 10), dchar n]

/-- Four-digit zero-padded rendering (`%04d`). -/
def pad4 (n : Nat) : List Char := [dchar (n / 1000), dchar (n / 100), dchar (n / 10), dchar n]

/-- Six-digit zero-padded rendering (`%06d`). -/
def pad6 (n : Nat) : List Char :=
  [dchar (n / 100000), dchar (n / 10000), dchar (n / 1000), dchar (n / 100),
   dchar (n / 10), dchar n]

/-- Model of `datetime.isoformat()`:
`YYYY-MM-DDTHH:MM:SS[.ffffff]`, the fraction present iff the
microsecond field is nonzero. -/
def isoChars (d : PyDateTime) : List Char :=
  pad4 d.year ++ ['-'] ++ pad2 d.month ++ ['-'] ++ pad2 d.day ++ ['T'] ++ pad2 d.hour ++
    [':'] ++ pad2 d.minute ++ [':'] ++ pad2 d.second ++
    (if d.micro = 0 then [] else ['.'] ++ pad6 d.micro)

/-- Numeric value of one digit character. -/
def digitV (c : Char) : Option Nat := if isDigitC c then some (c.toNat - 48) else none

/-- Construct a `datetime`, failing like the constructor does on
out-of-range fields. -/
def mkDT (y mo dd hh mi ss uu : Nat) : Option PyDateTime :=
  if h : DTValid y mo dd hh mi ss uu then some ⟨y, mo, dd, hh, mi, ss, uu, h⟩ else none

/-- Read exactly two digit characters. -/
def read2 : List Char → Option (Nat × List Char)
  | a :: b :: r =>
    match digitV a, digitV b with
    | some x, some y => some (10 * x + y, r)
    | _, _ => none
  | _ => none

/-- Read exactly four digit characters. -/
def read4 : List Char → Option (Nat × List Char)
  | a :: b :: c :: d :: r =>
    match digitV a, digitV b, digitV c, digitV d with
    | some x, some y, some z, some w => some (1000 * x + 100 * y + 10 * z + w, r)
    | _, _, _, _ => none
  | _ => none

/-- Read exactly six digit characters. -/
def read6 (l : List Char) : Option (Nat × List Char) :=
  match read4 l with
  | some (a, r) =>
    match read2 r with
    | some (b, r2) => some (100 * a + b, r2)
    | none => none
  | none => none

/-- Require one specific character. -/
def expectC (c : Char) : List Char → Option (List Char)
  | x :: r => if x = c then some r else none
  | [] => none

/-- Model of `datetime.fromisoformat` (Python 3.10 semantics) on the
naive shapes `YYYY-MM-DD[*HH:MM[:SS[.ffffff]]]` with an arbitrary
one-character separator `*`; timezone suffixes and three-digit
fractions are not modelled (no string this file evaluates carries
them). -/
def fromIsoChars (l : List Char) : Option PyDateTime :=
  (read4 l).bind fun py =>
  (expectC '-' py.2).bind fun l2 =>
  (read2 l2).bind fun pm =>
  (expectC '-' pm.2).bind fun l4 =>
  (read2 l4).bind fun pd =>
  match pd.2 with
  | [] => mkDT py.1 pm.1 pd.1 0 0 0 0
  | _ :: l6 =>
    (read2 l6).bind fun ph =>
    (expectC ':' ph.2).bind fun l8 =>
    (read2 l8).bind fun pmi =>
    match pmi.2 with
    | [] => mkDT py.1 pm.1 pd.1 ph.1 pmi.1 0 0
    | _ :: _ =>
      (expectC ':' pmi.2).bind fun l10 =>
      (read2 l10).bind fun ps =>
      match ps.2 with
      | [] => mkDT py.1 pm.1 pd.1 ph.1 pmi.1 ps.1 0
      | _ :: _ =>
        (expectC '.' ps.2).bind fun l12 =>
        (read6 l12).bind fun pu =>
        if pu.2.isEmpty then mkDT py.1 pm.1 pd.1 ph.1 pmi.1 ps.1 pu.1 else none

/-- Anchored match of the shared time tail `\s+(\d{2}:\d{2}:\d{2})` of
the three `self.date_patterns` regexes: the captured time text, or
failure. -/
def anchTimeTail (r : List Char) : Option (List Char) :=
  let sp := r.takeWhile isSpaceC
  if sp.isEmpty then none
  else
    let r1 := r.drop sp.length
    match takeDigitsN 2 r1 with
    | some (h, r2) =>
      match expectC ':' r2 with
      | some r3 =>
        match takeDigitsN 2 r3 with
        | some (mi, r4) =>
          match expectC ':' r4 with
          | some r5 =>
            match takeDigitsN 2 r5 with
            | some (s, _) => some (h ++ [':'] ++ mi ++ [':'] ++ s)
            | none => none
          | none => none
        | none => none
      | none => none
    | none => none

/-- Anchored match of `(\d{4}-\d{2}-\d{2})\s+(\d{2}:\d{2}:\d{2})`
(date pattern 1): the two captured groups. -/
def anchDate1 (l : List Char) : Option (List Char × List Char) :=
  match takeDigitsN 4 l with
  | some (y, r1) =>
    match expectC '-' r1 with
    | some r2 =>
      match takeDigitsN 2 r2 with
      | some (m, r3) =>
        match expectC '-' r3 with
        | some r4 =>
          match takeDigitsN 2 r4 with
          | some (d, r5) =>
            match anchTimeTail r5 with
            | some t => some (y ++ ['-'] ++ m ++ ['-'] ++ d, t)
            | none => none
          | none => none
        | none => none
      | none => none
    | none => none
  | none => none

/-- Anchored match of `(\d{2}/\d{2}/\d{4})\s+(\d{2}:\d{2}:\d{2})`
(date pattern 2) and, with separator `-`, of date pattern 3. -/
def anchDateDMY (sep : Char) (l : List Char) : Option (List Char × List Char) :=
  match takeDigitsN 2 l with
  | some (d, r1) =>
    match expectC sep r1 with
    | some r2 =>
      match takeDigitsN 2 r2 with
      | some (m, r3) =>
        match expectC sep r3 with
        | some r4 =>
          match takeDigitsN 4 r4 with
          | some (y, r5) =>
            match anchTimeTail r5 with
            | some t => some (d ++ [sep] ++ m ++ [sep] ++ y, t)
            | none => none
          | none => none
        | none => none
      | none => none
    | none => none
  | none => none

/-- Parse `HH:MM:SS`, the shape of every captured time group. -/
def parseTimeHMS (t : List Char) : Option (Nat × Nat × Nat) :=
  (read2 t).bind fun ph =>
  (expectC ':' ph.2).bind fun l1 =>
  (read2 l1).bind fun pm =>
  (expectC ':' pm.2).bind fun l2 =>
  (read2 l2).bind fun ps =>
  if ps.2.isEmpty then some (ph.1, pm.1, ps.1) else none

/-- Model of `datetime.strptime(f"{date} {time}", "%Y-%m-%d %H:%M:%S")`
on the fixed-width captures produced by the date patterns (CPython
field regexes and constructor checks reject exactly the values
`mkDT` rejects on these shapes). -/
def strptimeYMD (date time : List Char) : Option PyDateTime :=
  let dp :=
    (read4 date).bind fun py =>
    (expectC '-' py.2).bind fun l1 =>
    (read2 l1).bind fun pm =>
    (expectC '-' pm.2).bind fun l2 =>
    (read2 l2).bind fun pd =>
    if pd.2.isEmpty then some (py.1, pm.1, pd.1) else none
  match dp, parseTimeHMS time with
  | some (y, mo, dd), some (hh, mi, ss) => mkDT y mo dd hh mi ss 0
  | _, _ => none

/-- Model of `datetime.strptime` with format `%d<sep>%m<sep>%Y %H:%M:%S`
(formats 2 and 3 of the cleaner) on the fixed-width captures. -/
def strptimeDMY (sep : Char) (date time : List Char) : Option PyDateTime :=
  let dp :=
    (read2 date).bind fun pd =>
    (expectC sep pd.2).bind fun l1 =>
    (read2 l1).bind fun pm =>
    (expectC sep pm.2).bind fun l2 =>
    (read4 l2).bind fun py =>
    if py.2.isEmpty then some (py.1, pm.1, pd.1) else none
  match dp, parseTimeHMS time with
  | some (y, mo, dd), some (hh, mi, ss) => mkDT y mo dd hh mi ss 0
  | _, _ => none

/-- The inner format loop of `_clean_timestamp`: try the three
`strptime` formats in order, first success wins. -/
def tryFormats (date time : List Char) : Option PyDateTime :=
  match strptimeYMD date time with
  | some d => some d
  | none =>
    match strptimeDMY '/' date time with
    | some d => some d
    | none => strptimeDMY '-' date time

/-- The `self.date_patterns` table, in order. -/
def datePats : List (List Char → Option (List Char × List Char)) :=
  [anchDate1, anchDateDMY '/', anchDateDMY '-']

/-- The outer pattern loop of `_clean_timestamp`: `re.search` each
date pattern; on a match, run the format loop on its groups; a parse
failure falls through to the next pattern. -/
def dateLoop : List (List Char → Option (List Char × List Char)) → List Char →
    Option PyDateTime
  | [], _ => none
  | p :: ps, s =>
    match searchPat p s with
    | some g =>
      match tryFormats g.1 g.2 with
      | some d => some d
      | none => dateLoop ps s
    | none => dateLoop ps s

/-- Model of `DataCleaner._clean_timestamp` on characters. `now` is
the value of `datetime.now()` during the call; `fts` is
`datetime.fromtimestamp` (a function of the local timezone, hence
abstract). -/
def cleanTimestampL (now : PyDateTime) (fts : ℚ → PyDateTime) (ts : List Char) : List Char :=
  if ts.isEmpty then isoChars now
  else if isDigitS (stripS ts) && (stripS ts).length = 13 then
    isoChars (fts (qDivNat ((digitsVal (stripS ts) : Nat) : ℚ) 1000))
  else if isDigitS (stripS ts) && (stripS ts).length = 10 then
    isoChars (fts ((digitsVal (stripS ts) : Nat) : ℚ))
  else if (stripS ts).any (fun c => c = 'T') then
    match fromIsoChars ((stripS ts).filter fun c => c ≠ 'Z') with
    | some d => isoChars d
    | none => isoChars now
  else
    match dateLoop datePats (stripS ts) with
    | some d => isoChars d
    | none => isoChars now

/-- Model of `DataCleaner._clean_timestamp`. -/
def cleanTimestamp (now : PyDateTime) (fts : ℚ → PyDateTime) (s : String) : String :=
  String.mk (cleanTimestampL now fts s.data)

/-! ### The isoformat round trip -/

theorem isDigitC_dchar (n : Nat) : isDigitC (dchar n) = true := by
  have h : n % 10 < 10 := Nat.mod_lt _ (by omega)
  unfold dchar
  interval_cases h : n % 10 <;> decide

theorem digitV_dchar (n : Nat) : digitV (dchar n) = some (n % 10) := by
  have h : n % 10 < 10 := Nat.mod_lt _ (by omega)
  unfold dchar digitV
  interval_cases h : n % 10 <;> decide

theorem read2_pad2 {n : Nat} (h : n ≤ 99) (r : List Char) :
    read2 (pad2 n ++ r) = some (n, r) := by
  simp only [pad2, List.cons_append, List.nil_append, read2, digitV_dchar]
  have h1 : n / 10 % 10 = n / 10 := Nat.mod_eq_of_lt (by omega)
  rw [h1]
  exact congrArg some (by rw [Prod.mk.injEq]; exact ⟨by omega, rfl⟩)

theorem read4_pad4 {n : Nat} (h : n ≤ 9999) (r : List Char) :
    read4 (pad4 n ++ r) = some (n, r) := by
  simp only [pad4, List.cons_append, List.nil_append, read4, digitV_dchar]
  exact congrArg some (by rw [Prod.mk.injEq]; exact ⟨by omega, rfl⟩)

theorem read2_pad2_mod (n : Nat) (r : List Char) :
    read2 (pad2 n ++ r) = some (10 * (n / 10 % 10) + n % 10, r) := by
  simp only [pad2, List.cons_append, List.nil_append, read2, digitV_dchar]

theorem read6_pad6 {n : Nat} (h : n ≤ 999999) (r : List Char) :
    read6 (pad6 n ++ r) = some (n, r) := by
  have hsplit : pad6 n ++ r =
      pad4 (n / 100) ++ (pad2 n ++ r) := by
    simp only [pad6, pad4, pad2, List.cons_append, List.nil_append]
    have e1 : n / 100 / 10 = n / 1000 := by omega
    have e2 : n / 100 / 100 = n / 10000 := by omega
    have e3 : n / 100 / 1000 = n / 100000 := by omega
    rw [e1, e2, e3]
  rw [hsplit]
  unfold read6
  rw [read4_pad4 (by omega)]
  simp only [read2_pad2_mod]
  exact congrArg some (by rw [Prod.mk.injEq]; exact ⟨by omega, rfl⟩)

theorem daysInMonth_le (y m : Nat) : daysInMonth y m ≤ 31 := by
  unfold daysInMonth
  split
  · split <;> omega
  · split <;> omega

theorem expectC_cons (c : Char) (r : List Char) : expectC c (c :: r) = some r := by
  simp [expectC]

/-- `fromisoformat` is a left inverse of `isoformat` on every valid
`datetime` value. -/
theorem fromIso_isoChars (d : PyDateTime) : fromIsoChars (isoChars d) = some d := by
  obtain ⟨y, mo, dd, hh, mi, ss, uu, hv⟩ := d
  obtain ⟨hy1, hy2, hm1, hm2, hd1, hd2, hh2, hmi2, hss2, huu⟩ := hv
  have hdm := daysInMonth_le y mo
  by_cases hu : uu = 0
  · subst hu
    simp only [isoChars, eq_self_iff_true, if_true, List.append_nil, List.append_assoc,
      List.singleton_append, List.cons_append]
    simp only [fromIsoChars, read4_pad4 (show y ≤ 9999 by omega),
      read2_pad2 (show mo ≤ 99 by omega), read2_pad2 (show dd ≤ 99 by omega),
      read2_pad2 (show hh ≤ 99 by omega), read2_pad2 (show mi ≤ 99 by omega),
      Option.some_bind, expectC_cons, List.append_nil, List.nil_append]
    have hlast : read2 (pad2 ss) = some (ss, []) := by
      have := read2_pad2 (show ss ≤ 99 by omega) []
      rwa [List.append_nil] at this
    simp only [hlast, Option.some_bind]
    rw [mkDT, dif_pos ⟨hy1, hy2, hm1, hm2, hd1, hd2, hh2, hmi2, hss2, by omega⟩]
  · simp only [isoChars, if_neg hu, List.append_assoc, List.singleton_append,
      List.cons_append]
    simp only [fromIsoChars, read4_pad4 (show y ≤ 9999 by omega),
      read2_pad2 (show mo ≤ 99 by omega), read2_pad2 (show dd ≤ 99 by omega),
      read2_pad2 (show hh ≤ 99 by omega), read2_pad2 (show mi ≤ 99 by omega),
      read2_pad2 (show ss ≤ 99 by omega),
      Option.some_bind, expectC_cons, List.nil_append]
    have hlast : read6 (pad6 uu) = some (uu, []) := by
      have := read6_pad6 (show uu ≤ 999999 by omega) []
      rwa [List.append_nil] at this
    simp only [hlast, Option.some_bind, List.isEmpty_nil, if_pos]
    rw [mkDT, dif_pos ⟨hy1, hy2, hm1, hm2, hd1, hd2, hh2, hmi2, hss2, huu⟩]

/-! ### Character inventory of an isoformat string -/

theorem pad2_forall (n : Nat) : ∀ c ∈ pad2 n, isDigitC c = true := by
  intro c hc
  simp only [pad2, List.mem_cons, List.not_mem_nil, or_false] at hc
  rcases hc with rfl | rfl <;> exact isDigitC_dchar _

theorem pad4_forall (n : Nat) : ∀ c ∈ pad4 n, isDigitC c = true := by
  intro c hc
  simp only [pad4, List.mem_cons, List.not_mem_nil, or_false] at hc
  rcases hc with rfl | rfl | rfl | rfl <;> exact isDigitC_dchar _

theorem pad6_forall (n : Nat) : ∀ c ∈ pad6 n, isDigitC c = true := by
  intro c hc
  simp only [pad6, List.mem_cons, List.not_mem_nil, or_false] at hc
  rcases hc with rfl | rfl | rfl | rfl | rfl | rfl <;> exact isDigitC_dchar _

theorem isoChars_mem {d : PyDateTime} {c : Char} (hc : c ∈ isoChars d) :
    isDigitC c = true ∨ c = '-' ∨ c = ':' ∨ c = 'T' ∨ c = '.' := by
  unfold isoChars at hc
  simp only [List.mem_append] at hc
  rcases hc with (((((((((((h | h) | h) | h) | h) | h) | h) | h) | h) | h) | h) | h)
  · exact Or.inl (pad4_forall _ _ h)
  · rw [List.mem_singleton] at h; exact Or.inr (Or.inl h)
  · exact Or.inl (pad2_forall _ _ h)
  · rw [List.mem_singleton] at h; exact Or.inr (Or.inl h)
  · exact Or.inl (pad2_forall _ _ h)
  · rw [List.mem_singleton] at h; exact Or.inr (Or.inr (Or.inr (Or.inl h)))
  · exact Or.inl (pad2_forall _ _ h)
  · rw [List.mem_singleton] at h; exact Or.inr (Or.inr (Or.inl h))
  · exact Or.inl (pad2_forall _ _ h)
  · rw [List.mem_singleton] at h; exact Or.inr (Or.inr (Or.inl h))
  · exact Or.inl (pad2_forall _ _ h)
  · by_cases hu : d.micro = 0
    · rw [if_pos hu] at h
      exact absurd h (List.not_mem_nil c)
    · rw [if_neg hu] at h
      rcases List.mem_append.mp h with h | h
      · rw [List.mem_singleton] at h
        exact Or.inr (Or.inr (Or.inr (Or.inr h)))
      · exact Or.inl (pad6_forall _ _ h)

theorem isoChars_not_space {d : PyDateTime} {c : Char} (hc : c ∈ isoChars d) :
    isSpaceC c = false := by
  rcases isoChars_mem hc with h | h | h | h | h
  · exact digitC_not_space h
  all_goals subst h; decide

theorem isoChars_ne_nil (d : PyDateTime) : isoChars d ≠ [] := by
  simp [isoChars, pad4]

theorem stripS_isoChars (d : PyDateTime) : stripS (isoChars d) = isoChars d := by
  refine stripS_of_noedge (fun c hc => ?_) (fun c hc => ?_)
  · exact isoChars_not_space (List.mem_of_mem_head? (Option.mem_def.mpr hc))
  · exact isoChars_not_space (List.mem_of_mem_getLast? (Option.mem_def.mpr hc))

theorem isDigitS_isoChars (d : PyDateTime) : isDigitS (isoChars d) = false := by
  have hdash : '-' ∈ isoChars d := by
    simp [isoChars, pad4, List.append_assoc, List.singleton_append]
  unfold isDigitS
  have hall : (isoChars d).all isDigitC = false := by
    cases hb : (isoChars d).all isDigitC with
    | false => rfl
    | true =>
      exfalso
      have := List.all_eq_true.mp hb _ hdash
      simp [isDigitC] at this
  rw [hall, Bool.and_false]

theorem anyT_isoChars (d : PyDateTime) : (isoChars d).any (fun c => c = 'T') = true := by
  refine List.any_eq_true.mpr ⟨'T', ?_, by simp⟩
  simp [isoChars, pad4, pad2, List.append_assoc, List.singleton_append]

theorem filterZ_isoChars (d : PyDateTime) :
    (isoChars d).filter (fun c => c ≠ 'Z') = isoChars d := by
  refine List.filter_eq_self.mpr fun c hc => ?_
  rcases isoChars_mem hc with h | h | h | h | h
  · simp only [decide_eq_true_eq]
    intro hz
    subst hz
    simp [isDigitC] at h
  all_goals subst h; decide

/-! ### Idempotence of the timestamp cleaner -/

theorem cleanTimestampL_iso (now : PyDateTime) (fts : ℚ → PyDateTime) (ts : List Char) :
    ∃ e, cleanTimestampL now fts ts = isoChars e := by
  unfold cleanTimestampL
  split
  · exact ⟨now, rfl⟩
  · split
    · exact ⟨_, rfl⟩
    · split
      · exact ⟨_, rfl⟩
      · split
        · split
          · exact ⟨_, rfl⟩
          · exact ⟨now, rfl⟩
        · split
          · exact ⟨_, rfl⟩
          · exact ⟨now, rfl⟩

theorem cleanTimestampL_fix (now2 : PyDateTime) (fts2 : ℚ → PyDateTime) (e : PyDateTime) :
    cleanTimestampL now2 fts2 (isoChars e) = isoChars e := by
  have hne : (isoChars e).isEmpty = false := by
    rcases hh : isoChars e with _ | _
    · exact absurd hh (isoChars_ne_nil e)
    · rfl
  simp only [cleanTimestampL, hne, Bool.false_eq_true, if_false, stripS_isoChars,
    isDigitS_isoChars, Bool.false_and, anyT_isoChars, if_true, filterZ_isoChars,
    fromIso_isoChars]

theorem cleanTimestampL_idem (now now2 : PyDateTime) (fts fts2 : ℚ → PyDateTime)
    (ts : List Char) :
    cleanTimestampL now2 fts2 (cleanTimestampL now fts ts) = cleanTimestampL now fts ts := by
  obtain ⟨e, he⟩ := cleanTimestampL_iso now fts ts
  rw [he, cleanTimestampL_fix]

/-! ## Categorization (`TransactionCategorizer`, categorize.py)

Every regex in the categorizer tables is a literal string (the only
escaped character, `\*`, stands for a literal `*`), searched
case-insensitively, so `substrCI` is an exact model of each
`re.search(pattern, sms_body, re.IGNORECASE)` call. Confidence
literals are written as explicit fractions (`mkRat 9 10` is `0.9`). -/

/-- One entry of the `self.categories` table. -/
structure CatInfo where
  cid : Nat
  cname : String
  pats : List String
  kws : List String

/-- The `self.categories` table (categorize.py lines 18-59), in
insertion order 1..5. -/
def categories : List CatInfo :=
  [⟨1, "Airtime Purchase",
    ["airtime", "token", "*182*", "internet", "data bundle", "mobile data",
     "data package", "bundle", "units"],
    ["airtime", "token", "internet", "data", "bundle", "units"]⟩,
   ⟨2, "Bill Payment",
    ["bill payment", "utility", "electricity", "water", "rent", "insurance",
     "tax", "government", "council"],
    ["bill", "utility", "electricity", "water", "rent", "insurance"]⟩,
   ⟨3, "Money Transfer",
    ["transferred", "sent", "received", "mobile money", "momo", "transfer",
     "send money", "receive money", "payment to"],
    ["transfer", "send", "receive", "money", "payment"]⟩,
   ⟨4, "School Fees",
    ["school fees", "tuition", "education", "student", "university",
     "college", "academic", "learning", "school"],
    ["school", "tuition", "education", "student", "university"]⟩,
   ⟨5, "Shopping",
    ["payment", "purchase", "merchant", "shop", "buy", "store", "retail",
     "goods", "services", "pos"],
    ["payment", "purchase", "merchant", "shop", "buy"]⟩]

/-- The `self.transaction_types` table (categorize.py lines 62-83):
name, patterns, pre-assigned category id and confidence, in insertion
order DEPOSIT, WITHDRAWAL, AIRTIME, BILL_PAYMENT. -/
def txnTypes : List (String × List String × Nat × ℚ) :=
  [("DEPOSIT", ["bank deposit", "cash deposit", "deposited", "added to your account"],
    3, mkRat 9 10),
   ("WITHDRAWAL", ["withdrawal", "cash out", "withdrawn", "cash withdrawal"],
    3, mkRat 9 10),
   ("AIRTIME", ["airtime", "token", "*182*", "internet"], 1, mkRat 19 20),
   ("BILL_PAYMENT", ["bill payment", "utility", "electricity", "water"], 2, mkRat 9 10)]

/-- Stage 1 of `_determine_category` (lines 123-127): the first
transaction-type signature, in table order, one of whose patterns
occurs in the body, decides immediately. -/
def typeStage (body : List Char) : Option (Nat × ℚ × String) :=
  txnTypes.findSome? fun t =>
    if t.2.1.any (fun p => substrCI p.data body) then
      some (t.2.2.1, t.2.2.2, "transaction_type_" ++ t.1)
    else none

/-- Stage 2 scoring of one category (lines 132-149): one point per
matching pattern, half a point per occurring keyword, normalized by
the category's pattern count; only categories with at least one hit
are entered into the score dictionary. -/
def catScore (body : List Char) (ci : CatInfo) : Option (Nat × ℚ) :=
  let phits := (ci.pats.filter fun p => substrCI p.data body).length
  let khits := (ci.kws.filter fun k => substrCI k.data body).length
  if 0 < phits + khits then
    some (ci.cid, qDivNat (qAdd (phits : ℚ) (qDivNat (khits : ℚ) 2)) ci.pats.length)
  else none

/-- The score dictionary after stage 2, as an insertion-ordered
association list (category ids ascending, 1..5). -/
def baseScores (body : List Char) : List (Nat × ℚ) :=
  categories.filterMap (catScore body)

/-- Python `category_scores[cid] += v` / `= v`: update in place when
the key exists (order preserved), else append. -/
def bumpScore (l : List (Nat × ℚ)) (cid : Nat) (v : ℚ) : List (Nat × ℚ) :=
  if l.any fun p => p.1 = cid then
    l.map fun p => if p.1 = cid then (p.1, qAdd p.2 v) else p
  else l ++ [(cid, v)]

/-- Model of `_categorize_by_amount` (lines 178-192). -/
def amountHeur (amount : ℚ) : Option (Nat × ℚ) :=
  if qLeB amount 0 then none
  else if qLeB amount 5000 then some (1, mkRat 3 10)
  else if qLeB 50000 amount then some (4, mkRat 2 5)
  else none

/-- The `type_mappings` table of `_categorize_by_transaction_type`
(lines 199-206). -/
def typeMap : List (String × Nat × ℚ) :=
  [("RECEIVE", 3, mkRat 3 5), ("SEND", 3, mkRat 3 5), ("DEPOSIT", 3, mkRat 7 10),
   ("WITHDRAWAL", 3, mkRat 7 10), ("PAYMENT", 2, mkRat 1 2), ("PURCHASE", 5, mkRat 1 2)]

/-- Model of `_categorize_by_transaction_type` (lines 194-208). -/
def typeHeur (ttype : List Char) : Option (Nat × ℚ) :=
  if ttype.isEmpty then none
  else (typeMap.find? fun t => t.1.data = upperS ttype).map fun t => t.2

/-- Stages 2-4: the score dictionary after the amount heuristic
(fixed bonus 0.2, lines 151-158) and the type heuristic (fixed bonus
0.1, lines 160-167); the confidence component of each heuristic's
return value is discarded, as in the source. -/
def categoryScores (body ttype : List Char) (amount : ℚ) : List (Nat × ℚ) :=
  let s1 := baseScores body
  let s2 :=
    match amountHeur amount with
    | some p => bumpScore s1 p.1 (mkRat 1 5)
    | none => s1
  match typeHeur ttype with
  | some p => bumpScore s2 p.1 (mkRat 1 10)
  | none => s2

/-- One comparison step of Python `max(items, key=value)`: the current
best is replaced only on a strictly greater value. -/
def pickMax (best x : Nat × ℚ) : Nat × ℚ := if qLtB best.2 x.2 then x else best

/-- Python `max(items, key=value)`: the first item, in iteration
order, whose value no later item strictly exceeds. -/
def maxByVal : List (Nat × ℚ) → Option (Nat × ℚ)
  | [] => none
  | p :: ps => some (ps.foldl pickMax p)

/-- Model of `_determine_category` (lines 120-176). -/
def determineCategory (body ttype : List Char) (amount : ℚ) : Nat × ℚ × String :=
  match typeStage body with
  | some r => r
  | none =>
    match maxByVal (categoryScores body ttype amount) with
    | some p => (p.1, qMin p.2 1, "pattern_matching")
    | none => (3, mkRat 1 10, "default_fallback")

/-- The categorization fields written into the record. -/
structure CatResult where
  categoryId : Nat
  categoryName : String
  confidence : ℚ
  method : String
deriving DecidableEq

/-- Model of the happy path of `categorize_transaction` (lines 85-109)
on a record's body, transaction type and amount: the category name is
looked up in `self.categories`; were the id absent, the `KeyError`
would be caught by the handler, producing `errFallback`. -/
def categorizeFields (body ttype : List Char) (amount : ℚ) : CatResult :=
  let r := determineCategory body (upperS ttype) amount
  match categories.find? fun ci => ci.cid = r.1 with
  | some ci => ⟨r.1, ci.cname, r.2.1, r.2.2⟩
  | none => ⟨3, "Money Transfer", 0, "error_fallback"⟩

/-- The `except` branch of `categorize_transaction` (lines 111-118):
the record is given the default category with confidence 0.0. -/
def errFallback : CatResult := ⟨3, "Money Transfer", 0, "error_fallback"⟩

/-! ### Range facts about the categorizer -/

theorem typeStage_range {body : List Char} {r : Nat × ℚ × String}
    (h : typeStage body = some r) : (1 ≤ r.1 ∧ r.1 ≤ 5) ∧ 0 ≤ r.2.1 ∧ r.2.1 ≤ 1 := by
  have h910 : (0 : ℚ) ≤ mkRat 9 10 ∧ mkRat 9 10 ≤ 1 := by
    rw [Rat.mkRat_eq_div]; norm_num
  have h1920 : (0 : ℚ) ≤ mkRat 19 20 ∧ mkRat 19 20 ≤ 1 := by
    rw [Rat.mkRat_eq_div]; norm_num
  unfold typeStage txnTypes at h
  simp only [List.findSome?_cons, List.findSome?_nil] at h
  split_ifs at h <;>
    simp only [Option.some.injEq, reduceCtorEq] at h <;>
    first
      | (subst h; exact ⟨by decide, h910.1, h910.2⟩)
      | (subst h; exact ⟨by decide, h1920.1, h1920.2⟩)
      | exact absurd h (by simp)

theorem baseScores_mem {body : List Char} {p : Nat × ℚ} (hp : p ∈ baseScores body) :
    (1 ≤ p.1 ∧ p.1 ≤ 5) ∧ 0 ≤ p.2 := by
  unfold baseScores at hp
  obtain ⟨ci, hci, hcs⟩ := List.mem_filterMap.mp hp
  simp only [catScore] at hcs
  split at hcs
  · simp only [Option.some.injEq] at hcs
    subst hcs
    constructor
    · fin_cases hci <;> simp
    · rw [qDivNat_eq, qAdd_eq, qDivNat_eq]
      positivity
  · exact absurd hcs (by simp)

theorem bumpScore_mem {l : List (Nat × ℚ)} {cid : Nat} {v : ℚ} {p : Nat × ℚ}
    (hl : ∀ q ∈ l, (1 ≤ q.1 ∧ q.1 ≤ 5) ∧ 0 ≤ q.2) (hcid : 1 ≤ cid ∧ cid ≤ 5)
    (hv : 0 ≤ v) (hp : p ∈ bumpScore l cid v) : (1 ≤ p.1 ∧ p.1 ≤ 5) ∧ 0 ≤ p.2 := by
  unfold bumpScore at hp
  split at hp
  · obtain ⟨q, hq, hfq⟩ := List.mem_map.mp hp
    by_cases hqc : q.1 = cid
    · rw [if_pos hqc] at hfq
      subst hfq
      refine ⟨(hl q hq).1, ?_⟩
      rw [qAdd_eq]
      exact add_nonneg (hl q hq).2 hv
    · rw [if_neg hqc] at hfq
      subst hfq
      exact hl q hq
  · rcases List.mem_append.mp hp with hp | hp
    · exact hl p hp
    · rw [List.mem_singleton] at hp
      subst hp
      exact ⟨hcid, hv⟩

theorem amountHeur_cid {a : ℚ} {p : Nat × ℚ} (h : amountHeur a = some p) :
    p.1 = 1 ∨ p.1 = 4 := by
  unfold amountHeur at h
  split_ifs at h <;> simp only [Option.some.injEq, reduceCtorEq] at h <;>
    first
      | (subst h; simp)
      | exact absurd h (by simp)

theorem typeHeur_cid {t : List Char} {p : Nat × ℚ} (h : typeHeur t = some p) :
    p.1 = 2 ∨ p.1 = 3 ∨ p.1 = 5 := by
  unfold typeHeur at h
  split at h
  · exact absurd h (by simp)
  · obtain ⟨e, he, hep⟩ := Option.map_eq_some'.mp h
    have hmem := List.mem_of_find?_eq_some he
    subst hep
    fin_cases hmem <;> simp

theorem categoryScores_mem {body t : List Char} {a : ℚ} :
    ∀ p ∈ categoryScores body t a, (1 ≤ p.1 ∧ p.1 ≤ 5) ∧ 0 ≤ p.2 := by
  intro p hp
  unfold categoryScores at hp
  have hbase : ∀ q ∈ baseScores body, (1 ≤ q.1 ∧ q.1 ≤ 5) ∧ 0 ≤ q.2 :=
    fun q hq => baseScores_mem hq
  have h02 : (0 : ℚ) ≤ mkRat 1 5 := by rw [Rat.mkRat_eq_div]; norm_num
  have h01 : (0 : ℚ) ≤ mkRat 1 10 := by rw [Rat.mkRat_eq_div]; norm_num
  cases ham : amountHeur a with
  | none =>
    rw [ham] at hp
    cases hty : typeHeur t with
    | none => rw [hty] at hp; exact hbase p hp
    | some q =>
      rw [hty] at hp
      refine bumpScore_mem hbase ?_ h01 hp
      rcases typeHeur_cid hty with h | h | h <;> omega
  | some q =>
    rw [ham] at hp
    have hmid : ∀ z ∈ bumpScore (baseScores body) q.1 (mkRat 1 5),
        (1 ≤ z.1 ∧ z.1 ≤ 5) ∧ 0 ≤ z.2 := by
      intro z hz
      refine bumpScore_mem hbase ?_ h02 hz
      rcases amountHeur_cid ham with h | h <;> omega
    cases hty : typeHeur t with
    | none => rw [hty] at hp; exact hmid p hp
    | some q2 =>
      rw [hty] at hp
      refine bumpScore_mem hmid ?_ h01 hp
      rcases typeHeur_cid hty with h | h | h <;> omega

theorem foldl_pickMax_le (ps : List (Nat × ℚ)) : ∀ acc : Nat × ℚ,
    acc.2 ≤ (ps.foldl pickMax acc).2 ∧ ∀ x ∈ ps, x.2 ≤ (ps.foldl pickMax acc).2 := by
  induction ps with
  | nil => intro acc; exact ⟨le_refl _, by simp⟩
  | cons x xs ih =>
    intro acc
    rw [List.foldl_cons]
    obtain ⟨h1, h2⟩ := ih (pickMax acc x)
    have hax : acc.2 ≤ (pickMax acc x).2 ∧ x.2 ≤ (pickMax acc x).2 := by
      unfold pickMax
      by_cases hb : qLtB acc.2 x.2 = true
      · rw [if_pos hb]
        exact ⟨le_of_lt ((qLtB_iff _ _).mp hb), le_refl _⟩
      · rw [if_neg hb]
        refine ⟨le_refl _, ?_⟩
        rcases le_or_lt x.2 acc.2 with h | h
        · exact h
        · exact absurd ((qLtB_iff _ _).mpr h) hb
    refine ⟨le_trans hax.1 h1, ?_⟩
    intro z hz
    rcases List.mem_cons.mp hz with rfl | hz
    · exact le_trans hax.2 h1
    · exact h2 z hz

theorem foldl_pickMax_split (ps : List (Nat × ℚ)) : ∀ acc : Nat × ℚ,
    ∃ m₁ m₂, acc :: ps = m₁ ++ (ps.foldl pickMax acc) :: m₂ ∧
      (∀ z ∈ m₁, z.2 < (ps.foldl pickMax acc).2) ∧
      (∀ z ∈ m₂, z.2 ≤ (ps.foldl pickMax acc).2) := by
  induction ps with
  | nil => intro acc; exact ⟨[], [], rfl, by simp, by simp⟩
  | cons x xs ih =>
    intro acc
    rw [List.foldl_cons]
    obtain ⟨m₁, m₂, heq, hlt, hle⟩ := ih (pickMax acc x)
    by_cases hb : qLtB acc.2 x.2 = true
    · have hstep : pickMax acc x = x := if_pos hb
      rw [hstep] at heq hlt hle ⊢
      refine ⟨acc :: m₁, m₂, by rw [List.cons_append, ← heq], ?_, hle⟩
      intro z hz
      rcases List.mem_cons.mp hz with rfl | hz
      · calc z.2 < x.2 := (qLtB_iff _ _).mp hb
          _ ≤ _ := (foldl_pickMax_le xs x).1
      · exact hlt z hz
    · have hstep : pickMax acc x = acc := if_neg hb
      have hxa : x.2 ≤ acc.2 := by
        rcases le_or_lt x.2 acc.2 with h | h
        · exact h
        · exact absurd ((qLtB_iff _ _).mpr h) hb
      rw [hstep] at heq hlt hle ⊢
      cases m₁ with
      | nil =>
        simp only [List.nil_append] at heq
        have hacc : xs.foldl pickMax acc = acc := by
          have := congrArg List.head? heq
          simpa using this.symm
        have hm₂ : m₂ = xs := by
          have := congrArg List.tail heq
          simpa using this.symm
        refine ⟨[], x :: xs, by simp [hacc], by simp, ?_⟩
        intro z hz
        rcases List.mem_cons.mp hz with rfl | hz
        · rw [hacc]; exact hxa
        · rw [hacc]
          exact le_trans (le_of_eq rfl)
            (by rw [← hacc]; exact hle z (by rw [hm₂]; exact hz) |>.trans (le_of_eq (by rw [hacc])))
      | cons m0 m₁' =>
        rw [List.cons_append] at heq
        injection heq with h1 h2
        subst h1
        have haccr : acc.2 < (xs.foldl pickMax acc).2 := hlt acc (by simp)
        refine ⟨acc :: x :: m₁', m₂, ?_, ?_, hle⟩
        · rw [List.cons_append, List.cons_append, ← h2]
        · intro z hz
          rcases List.mem_cons.mp hz with rfl | hz
          · exact haccr
          · rcases List.mem_cons.mp hz with rfl | hz
            · exact lt_of_le_of_lt hxa haccr
            · exact hlt z (by simp [hz])

/-- Python `max` over the score items: the result is a member whose
value is maximal, and every earlier member has a strictly smaller
value (ties are broken by iteration, i.e. insertion, order). -/
theorem maxByVal_spec {l : List (Nat × ℚ)} {p : Nat × ℚ} (h : maxByVal l = some p) :
    ∃ m₁ m₂, l = m₁ ++ p :: m₂ ∧ (∀ z ∈ m₁, z.2 < p.2) ∧ ∀ z ∈ m₂, z.2 ≤ p.2 := by
  cases l with
  | nil => exact absurd h (by simp [maxByVal])
  | cons a as =>
    unfold maxByVal at h
    simp only [Option.some.injEq] at h
    subst h
    exact foldl_pickMax_split as a

theorem maxByVal_mem {l : List (Nat × ℚ)} {p : Nat × ℚ} (h : maxByVal l = some p) :
    p ∈ l := by
  obtain ⟨m₁, m₂, heq, -, -⟩ := maxByVal_spec h
  rw [heq]
  simp

/-! ## Record-level cleaning (`DataCleaner.clean_transaction`, clean_normalize.py lines 42-84)

Python dict values are dynamically typed; `PyVal` models the value
shapes that the cleaner distinguishes: strings, numbers, `None`, and
any other object (carrying its `str()` rendering and its truth
value). Attribute access such as `.strip()` on a non-string raises;
this is modelled by `Except`. -/

/-- A dynamically typed Python value stored in a record field. -/
inductive PyVal where
  | s (v : String)
  | f (v : ℚ)
  | pyNone
  | obj (strv : String) (truthy : Bool)
deriving DecidableEq

/-- Python truthiness of a field value. -/
def pyTruthy : PyVal → Bool
  | .s v => !v.isEmpty
  | .f q => !(q = 0 : Bool)
  | .pyNone => false
  | .obj _ t => t

/-- Python `str()` of a field value (floats are rendered by
`pyFloatStr`; an `obj` carries its rendering). -/
def pyStr : PyVal → String
  | .s v => v
  | .f q => String.mk (pyFloatStr q)
  | .pyNone => "None"
  | .obj v _ => v

/-- A record as received by `clean_transaction`: a dict (association
list with unique keys, Python insertion order) or a non-dict object,
on which the item assignment of the error handler raises. -/
abbrev RawDict : Type := List (String × PyVal)

/-- Model of `transaction.get(k, dflt)`. -/
def getV (d : RawDict) (k : String) (dflt : PyVal) : PyVal :=
  match d.find? fun p => p.1 = k with
  | some p => p.2
  | none => dflt

/-- One element of the batch list. -/
inductive PyRec where
  | dict (d : RawDict)
  | nondict

/-- The `_validation` report attached to every cleaned record. -/
structure ValidationInfo where
  isValid : Bool
  issues : List String
deriving DecidableEq

/-- A cleaned transaction record: the fixed field set written by
`clean_transaction`. The raw passthrough fields of the `copy()` are
not modelled (no claim concerns them); `body` is kept when the raw
body is a string. -/
structure Txn where
  tid : String
  amount : ℚ
  sender : String
  receiver : String
  timestamp : String
  ttype : String
  body : Option String
  balanceAfter : Option ℚ
  fee : Option ℚ
  validation : ValidationInfo
deriving DecidableEq

/-- Model of `DataCleaner._clean_id` (lines 86-98); the generated id
uses `int(datetime.now().timestamp())`, passed as `nowEpoch`. A
non-string truthy value raises at `.strip()`. -/
def cleanIdV (nowEpoch : Nat) : PyVal → Except String String
  | .s v =>
    if v.isEmpty || (stripS v.data).isEmpty then
      .ok ("TXN_" ++ String.mk (natDigits nowEpoch))
    else
      let cid := String.mk (stripS v.data)
      .ok (if ("TXN_".data).isPrefixOf cid.data then cid else "TXN_" ++ cid)
  | .pyNone => .ok ("TXN_" ++ String.mk (natDigits nowEpoch))
  | .f q =>
    if q = 0 then .ok ("TXN_" ++ String.mk (natDigits nowEpoch))
    else .error "AttributeError: strip"
  | .obj _ t =>
    if t then .error "AttributeError: strip"
    else .ok ("TXN_" ++ String.mk (natDigits nowEpoch))

/-- Model of `_clean_amount` on a field value: a falsy value yields
0.0 before any string operation; otherwise the value is `str()`-ed and
cleaned. Never raises. -/
def cleanAmountV (v : PyVal) : ℚ :=
  if pyTruthy v then cleanAmountL (pyStr v).data else 0

/-- Model of `_clean_phone_number` on a field value: falsy values and
the literal `unknown` yield the sentinel before `.strip()` is reached;
a truthy non-string raises at `.strip()`. -/
def cleanPhoneV : PyVal → Except String String
  | .s v => .ok (cleanPhone v)
  | .pyNone => .ok "Unknown"
  | .f q => if q = 0 then .ok "Unknown" else .error "AttributeError: strip"
  | .obj _ t => if t then .error "AttributeError: strip" else .ok "Unknown"

/-- Model of `_clean_timestamp` on a field value: a falsy value yields
the current time; otherwise the value is `str()`-ed and cleaned.
Never raises. -/
def cleanTimestampV (now : PyDateTime) (fts : ℚ → PyDateTime) (v : PyVal) : String :=
  if pyTruthy v then String.mk (cleanTimestampL now fts (stripS (pyStr v).data))
  else String.mk (isoChars now)

/-- The `type_mappings` table of `_clean_transaction_type`
(clean_normalize.py lines 201-210). -/
def cleanTypeMap : List (String × String) :=
  [("1", "RECEIVE"), ("0", "SEND"), ("SENT", "SEND"), ("RECEIVED", "RECEIVE"),
   ("TRANSFER", "SEND"), ("PAYMENT", "SEND"), ("DEPOSIT", "RECEIVE"),
   ("WITHDRAWAL", "SEND")]

/-- Model of `_clean_transaction_type` (lines 192-212). Never raises:
`str()` and `.upper()` of the `str()` result are total. -/
def cleanTypeV (v : PyVal) : String :=
  if pyTruthy v then
    let ct := String.mk (upperS (stripS (pyStr v).data))
    match cleanTypeMap.find? fun m => m.1 = ct with
    | some m => m.2
    | none => ct
  else "UNKNOWN"

/-- Anchored match of `TxId:\s*(\d+)` (case-insensitive). -/
def anchTxId (s : List Char) : Option (List Char) :=
  (dropLitCI "txid:".data s).bind fun r =>
    let r1 := r.dropWhile isSpaceC
    let ds := r1.takeWhile isDigitC
    if ds.isEmpty then none else some ds

/-- Anchored match of `<label>[:\s]*(num)` (case-insensitive), the
shape of the balance and fee patterns of `_extract_from_body`. -/
def anchLabelNum (label : List Char) (s : List Char) : Option (List Char) :=
  (dropLitCI label s).bind fun r =>
    ((numCandidates (r.dropWhile fun c => c = ':' || isSpaceC c)).head?).map fun p => p.1

/-- The amount-from-body loop of `_extract_from_body` (lines 219-229):
first amount pattern that matches and parses. -/
def bodyAmount (body : List Char) : Option ℚ :=
  amountMatchers.findSome? fun m => (m body).bind fun g => decParse (removeCommas g)

/-- Balance or fee extraction of `_extract_from_body` (lines 237-252). -/
def bodyLabelAmount (label body : List Char) : Option ℚ :=
  (searchPat (anchLabelNum label) body).bind fun g => decParse (removeCommas g)

/-- Model of `DataCleaner._validate_transaction` (lines 254-269) on a
cleaned record: the required-field loop tests Python truthiness (a
zero amount is falsy), then non-negativity, then the both-sentinel
rule. -/
def validateTransaction (t : Txn) : Bool :=
  !(t.tid = "") && !(t.amount = 0 : Bool) && !(t.sender = "") && !(t.receiver = "") &&
    !(t.timestamp = "") && !(qLtB t.amount 0) &&
    !(t.sender = "Unknown" && t.receiver = "Unknown")

/-- Model of `DataCleaner._get_validation_issues` (lines 271-287). -/
def getIssues (t : Txn) : List String :=
  (if qLeB t.amount 0 then ["Invalid or zero amount"] else []) ++
    (if t.sender = "Unknown" then ["Unknown sender"] else []) ++
    (if t.receiver = "Unknown" then ["Unknown receiver"] else []) ++
    (if t.ttype = "UNKNOWN" then ["Unknown transaction type"] else [])

/-- Fetch the raw body for `_extract_from_body`: absent or falsy
bodies skip the extraction; a truthy non-string body raises inside
`re.search`. -/
def getBodyV (d : RawDict) : Except String (Option String) :=
  match d.find? fun p => p.1 = "body" with
  | some p =>
    if pyTruthy p.2 then
      match p.2 with
      | .s b => .ok (some b)
      | _ => .error "TypeError: expected string or bytes-like object"
    else .ok none
  | none => .ok none

/-- The happy path of `clean_transaction` (lines 44-74): clean each
field in order, extract from the body when present, attach the
validation report. An exception inside any step aborts to the handler
(modelled by `Except`). -/
def cleanInner (now : PyDateTime) (fts : ℚ → PyDateTime) (nowEpoch : Nat)
    (d : RawDict) : Except String Txn :=
  (cleanIdV nowEpoch (getV d "Id" (.s ""))).bind fun tid =>
  (cleanPhoneV (getV d "sender" (.s "Unknown"))).bind fun snd =>
  (cleanPhoneV (getV d "receiver" (.s "Unknown"))).bind fun rcv =>
  (getBodyV d).bind fun bodyOpt =>
  let amount0 := cleanAmountV (getV d "amount" (.s "0"))
  let ts := cleanTimestampV now fts (getV d "timestamp" (.s ""))
  let tt := cleanTypeV (getV d "transaction_type" (.s "UNKNOWN"))
  let amount1 :=
    match bodyOpt with
    | some b =>
      if amount0 = 0 then
        match bodyAmount b.data with
        | some q => q
        | none => amount0
      else amount0
    | none => amount0
  let tid1 :=
    match bodyOpt with
    | some b =>
      if tid = "" then
        match searchPat anchTxId b.data with
        | some ds => "TXN_" ++ String.mk ds
        | none => tid
      else tid
    | none => tid
  let bal := bodyOpt.bind fun b => bodyLabelAmount "balance".data b.data
  let fee := bodyOpt.bind fun b => bodyLabelAmount "fee".data b.data
  let base : Txn := ⟨tid1, amount1, snd, rcv, ts, tt, bodyOpt, bal, fee, ⟨true, []⟩⟩
  .ok { base with validation := ⟨validateTransaction base, getIssues base⟩ }

/-- The value returned by `clean_transaction`: either a cleaned record
or, when the handler at lines 76-84 fired, the original dict with an
error `_validation` report. -/
inductive CleanOut where
  | cleaned (t : Txn)
  | failed (orig : RawDict) (msg : String)
deriving DecidableEq

instance {ε α : Type} [DecidableEq ε] [DecidableEq α] : DecidableEq (Except ε α)
  | .ok a, .ok b => decidable_of_iff (a = b) (by simp)
  | .error a, .error b => decidable_of_iff (a = b) (by simp)
  | .ok _, .error _ => isFalse (by simp)
  | .error _, .ok _ => isFalse (by simp)

/-- The `_validation` report carried by every `clean_transaction`
result. -/
def outValidation : CleanOut → ValidationInfo
  | .cleaned t => t.validation
  | .failed _ msg => ⟨false, ["Cleaning error: " ++ msg]⟩

/-- Model of `DataCleaner.clean_transaction` with its outer
try/except: on a dict, any internal failure degrades to the original
record with an error report; on a non-dict, the handler itself raises
(`transaction["_validation"] = ...` is an invalid item assignment). -/
def cleanTransactionE (now : PyDateTime) (fts : ℚ → PyDateTime) (nowEpoch : Nat) :
    PyRec → Except String CleanOut
  | .dict d =>
    match cleanInner now fts nowEpoch d with
    | .ok t => .ok (.cleaned t)
    | .error e => .ok (.failed d e)
  | .nondict => .error "TypeError: item assignment on non-dict"

/-- Model of `DataCleaner.clean_batch` (lines 289-312): per-record
try/except whose handler again assigns `_validation` to the original
record — possible for a dict, raising (and aborting the batch) for a
non-dict. -/
def cleanBatchE (now : PyDateTime) (fts : ℚ → PyDateTime) (nowEpoch : Nat) :
    List PyRec → Except String (List CleanOut)
  | [] => .ok []
  | r :: rs =>
    match cleanTransactionE now fts nowEpoch r, r with
    | .ok o, _ => (cleanBatchE now fts nowEpoch rs).map fun os => o :: os
    | .error e, .dict d => (cleanBatchE now fts nowEpoch rs).map fun os => .failed d e :: os
    | .error e, .nondict => .error e

/-- Model of `categorize_transaction` applied to a `clean_transaction`
result. On a cleaned record the happy path of `categorizeFields` runs
(the fields are well typed). On a handler-tagged original dict, the
field accesses of categorize may themselves raise: a non-string body
or transaction type raises before categorization (error fallback),
and a non-float amount raises inside `_categorize_by_amount` unless a
type signature already decided. -/
def typeOnlyCat (b : List Char) : CatResult :=
  match typeStage b with
  | some r =>
    match categories.find? fun ci => ci.cid = r.1 with
    | some ci => ⟨r.1, ci.cname, r.2.1, r.2.2⟩
    | none => errFallback
  | none => errFallback

def categorizeOut : CleanOut → CatResult
  | .cleaned t => categorizeFields (t.body.getD "").data t.ttype.data t.amount
  | .failed d _ =>
    match getV d "body" (.s ""), getV d "transaction_type" (.s ""), getV d "amount" (.f 0) with
    | .s b, .s tt, .f a => categorizeFields b.data tt.data a
    | .s b, .s _, _ => typeOnlyCat b.data
    | _, _, _ => errFallback

/-- Model of `ETLPipeline.transform` (run.py lines 75-106): each
record is cleaned then categorized; a per-record exception appends an
error entry and SKIPS the record (`continue`), so failed records are
dropped from the output. Returns (outputs, error list). -/
def transformGo (now : PyDateTime) (fts : ℚ → PyDateTime) (nowEpoch : Nat) :
    Nat → List PyRec → List (CleanOut × CatResult) × List String
  | _, [] => ([], [])
  | i, r :: rs =>
    match cleanTransactionE now fts nowEpoch r with
    | .ok o =>
      let rest := transformGo now fts nowEpoch (i + 1) rs
      ((o, categorizeOut o) :: rest.1, rest.2)
    | .error e =>
      let rest := transformGo now fts nowEpoch (i + 1) rs
      (rest.1,
        ("Transaction " ++ String.mk (natDigits i) ++ " processing error: " ++ e) :: rest.2)

/-- Model of `ETLPipeline.transform` on a batch. -/
def transformE (now : PyDateTime) (fts : ℚ → PyDateTime) (nowEpoch : Nat)
    (rs : List PyRec) : List (CleanOut × CatResult) × List String :=
  transformGo now fts nowEpoch 0 rs

/-! ## Record discovery (`src/dsa/parse_xml.py` and `src/etl/parse_xml.py`)

An XML document is modelled as an element tree; the outcome of
`ET.parse` is an `Except`: a structurally invalid document is the
`error` case. `findall(t)` selects direct children, `findall(".//t")`
selects descendants in document order. -/

/-- A parsed XML element. -/
structure Element where
  tag : String
  attrs : List (String × String)
  children : List Element
  text : Option String

/-- Model of `findall(".//tag")` over a child list: matching
descendants in document order. -/
def findDescL (tag : String) : List Element → List Element
  | [] => []
  | c :: cs =>
    (if c.tag = tag then [c] else []) ++ findDescL tag c.children ++ findDescL tag cs
termination_by l => sizeOf l
decreasing_by
  · cases c
    simp only [Element.mk.sizeOf_spec, List.cons.sizeOf_spec]
    omega
  · simp only [List.cons.sizeOf_spec]
    omega

/-- Model of `findall(tag)`: matching direct children. -/
def findDirect (tag : String) (e : Element) : List Element :=
  e.children.filter fun c => c.tag = tag

/-- Python `a or b` on element lists (an empty list is falsy). -/
def orElseL (a b : List Element) : List Element := if a.isEmpty then b else a

/-- Model of `ETLXMLParser._find_sms_elements` (etl/parse_xml.py lines
116-129). -/
def findSmsETL (root : Element) : List Element :=
  if root.tag = "sms" || root.tag = "transaction" then [root]
  else if root.tag = "smses" || root.tag = "transactions" || root.tag = "data" then
    orElseL (findDirect "sms" root) (findDirect "transaction" root)
  else orElseL (findDescL "sms" root.children) (findDescL "transaction" root.children)

/-- Record discovery of `parse_sms_xml` (dsa/parse_xml.py lines
13-19); unlike the ETL variant, `smses` is not a container tag. -/
def findSmsDSA (root : Element) : List Element :=
  if root.tag = "sms" || root.tag = "transaction" then [root]
  else if root.tag = "transactions" || root.tag = "data" then
    orElseL (findDirect "sms" root) (findDirect "transaction" root)
  else orElseL (findDescL "sms" root.children) (findDescL "transaction" root.children)

/-- Dict insertion with Python overwrite semantics (later assignment
to an existing key keeps its position). -/
def insertKV (d : List (String × Option String)) (k : String) (v : Option String) :
    List (String × Option String) :=
  if d.any fun p => p.1 = k then d.map fun p => if p.1 = k then (k, v) else p
  else d ++ [(k, v)]

/-- Raw key/value collection of `_parse_sms_element` (etl/parse_xml.py
lines 134-146): attributes first, then child elements (stripped text,
or null). -/
def rawOfElementETL (e : Element) : List (String × Option String) :=
  e.children.foldl
    (fun d c =>
      insertKV d c.tag (match c.text with
        | some t => some (String.mk (stripS t.data))
        | none => none))
    (e.attrs.foldl (fun d p => insertKV d p.1 (some p.2)) [])

/-- Raw collection of the DSA parser (dsa/parse_xml.py lines 22-27):
children first, then attributes. -/
def rawOfElementDSA (e : Element) : List (String × Option String) :=
  e.attrs.foldl (fun d p => insertKV d p.1 (some p.2))
    (e.children.foldl
      (fun d c =>
        insertKV d c.tag (match c.text with
          | some t => some (String.mk (stripS t.data))
          | none => none))
      [])

/-- Model of `key in raw_data`, with the stored value. -/
def getR (d : List (String × Option String)) (k : String) : Option (Option String) :=
  (d.find? fun p => p.1 = k).map fun p => p.2

/-- The first alias key of `keys` that is present in `d` with a truthy
value, together with that value. -/
def firstTruthy (d : List (String × Option String)) (keys : List String) :
    Option (String × String) :=
  keys.findSome? fun k =>
    match getR d k with
    | some (some v) => if v.isEmpty then none else some (k, v)
    | _ => none

/-- Model of `ETLXMLParser._extract_receiver` (etl/parse_xml.py lines
228-234): the source returns `str(receiver_field).strip()` — the
NAME of the alias key, not the value stored under it. -/
def extractReceiver (d : List (String × Option String)) : String :=
  match firstTruthy d ["receiver", "Receiver", "to"] with
  | some kv => String.mk (stripS kv.1.data)
  | none => "Unknown"

/-- Model of `ETLXMLParser._extract_sender` (lines 220-226), which
returns the stripped value. -/
def extractSender (d : List (String × Option String)) : String :=
  match firstTruthy d ["sender", "Sender", "from"] with
  | some kv => String.mk (stripS kv.2.data)
  | none => "Unknown"

/-- Model of `ETLXMLParser._extract_id` (lines 194-202); the generated
id renders `index + 1` as `%06d` (indices above 999999 do not occur in
the statements below). -/
def extractId (d : List (String × Option String)) (index : Nat) : String :=
  match firstTruthy d ["Id", "id", "transaction_id", "txn_id"] with
  | some kv => String.mk (stripS kv.2.data)
  | none => "TXN_" ++ String.mk (pad6 (index + 1))

/-- Model of `ETLXMLParser._extract_transaction_type` (lines 204-210). -/
def extractType (d : List (String × Option String)) : String :=
  match firstTruthy d ["transaction_type", "Type", "type"] with
  | some kv => String.mk (stripS kv.2.data)
  | none => "UNKNOWN"

/-- Model of `ETLXMLParser._extract_amount` (lines 212-218). -/
def extractAmount (d : List (String × Option String)) : String :=
  match firstTruthy d ["amount", "Amount", "value"] with
  | some kv => String.mk (stripS kv.2.data)
  | none => "0"

/-- Model of `ETLXMLParser._extract_timestamp` (lines 236-242). -/
def extractTimestamp (now : PyDateTime) (d : List (String × Option String)) : String :=
  match firstTruthy d ["timestamp", "Timestamp", "date", "Date"] with
  | some kv => String.mk (stripS kv.2.data)
  | none => String.mk (isoChars now)

/-- The normalized record built by
`ETLXMLParser._normalize_transaction_data` (lines 163-192); extra
passthrough fields are not modelled (no claim concerns them). `body`
is `raw_data.get("body", "")`, which may be null. -/
structure EtlRaw where
  rid : String
  ttype : String
  amountS : String
  sender : String
  receiver : String
  timestamp : String
  body : Option String
deriving DecidableEq

/-- Model of `_normalize_transaction_data`. -/
def normalizeETL (now : PyDateTime) (d : List (String × Option String)) (index : Nat) :
    EtlRaw :=
  ⟨extractId d index, extractType d, extractAmount d, extractSender d,
   extractReceiver d, extractTimestamp now d,
   match getR d "body" with
   | none => some ""
   | some v => v⟩

/-- Model of `ETLXMLParser._validate_transaction` (lines 244-256):
every required field present (always, after normalization) and
truthy. -/
def validateETLRaw (t : EtlRaw) : Bool :=
  !t.rid.isEmpty && !t.ttype.isEmpty && !t.amountS.isEmpty && !t.sender.isEmpty &&
    !t.receiver.isEmpty && !t.timestamp.isEmpty && !(t.rid = "")

/-- Model of `_parse_sms_element` (lines 131-161): normalize, then
drop the element when validation fails. -/
def parseSmsElementETL (now : PyDateTime) (e : Element) (index : Nat) : Option EtlRaw :=
  let t := normalizeETL now (rawOfElementETL e) index
  if validateETLRaw t then some t else none

/-- Model of `ETLXMLParser._parse_xml_enhanced` (lines 71-114): a
structurally invalid document re-raises to the caller; otherwise each
discovered element is parsed, failures and invalid elements being
skipped. -/
def enhancedParse (now : PyDateTime) : Except String Element → Except String (List EtlRaw)
  | .error e => .error e
  | .ok root =>
    .ok ((findSmsETL root).enum.filterMap fun ie => parseSmsElementETL now ie.2 ie.1)

/-- The normalized record built by the DSA parser (dsa/parse_xml.py
lines 29-62); extra passthrough fields are not modelled. The id is
selected by key PRESENCE (not truthiness), so a present null id is
kept as null. -/
structure DsaRaw where
  rid : Option String
  ttype : String
  amountS : String
  sender : String
  receiver : String
  timestamp : String
deriving DecidableEq

/-- The id selection of the DSA parser: first PRESENT alias key, in
order `Id`, `id`, `transaction_id`, else a generated `txn_<n>` id. -/
def dsaId (d : List (String × Option String)) (index : Nat) : Option String :=
  match getR d "Id" with
  | some v => v
  | none =>
    match getR d "id" with
    | some v => v
    | none =>
      match getR d "transaction_id" with
      | some v => v
      | none => some ("txn_" ++ String.mk (natDigits (index + 1)))

/-- Model of the per-element normalization of `parse_sms_xml`; the
`or`-chains select the first truthy alias value. -/
def normalizeDSA (now : PyDateTime) (d : List (String × Option String)) (index : Nat) :
    DsaRaw :=
  ⟨dsaId d index,
   (match firstTruthy d ["transaction_type", "Type", "type"] with
    | some kv => kv.2
    | none => "UNKNOWN"),
   (match firstTruthy d ["amount", "Amount"] with
    | some kv => kv.2
    | none => "0"),
   (match firstTruthy d ["sender", "Sender"] with
    | some kv => kv.2
    | none => "Unknown"),
   (match firstTruthy d ["receiver", "Receiver"] with
    | some kv => kv.2
    | none => "Unknown"),
   (match firstTruthy d ["timestamp", "Timestamp"] with
    | some kv => kv.2
    | none => String.mk (isoChars now))⟩

/-- Model of `parse_sms_xml` (dsa/parse_xml.py lines 5-76): the
try/except catches `ET.ParseError` (and everything else) and RETURNS
AN EMPTY LIST instead of raising. -/
def dsaParse (now : PyDateTime) : Except String Element → List DsaRaw
  | .error _ => []
  | .ok root => (findSmsDSA root).enum.map fun ie => normalizeDSA now (rawOfElementDSA ie.2) ie.1

/-! ## Remaining range lemmas for the categorizer -/

theorem mkRat_one_tenth_bounds : (0 : ℚ) ≤ mkRat 1 10 ∧ mkRat 1 10 ≤ 1 := by
  rw [Rat.mkRat_eq_div]; norm_num

theorem determineCategory_bounds (b t : List Char) (a : ℚ) :
    (1 ≤ (determineCategory b t a).1 ∧ (determineCategory b t a).1 ≤ 5) ∧
      0 ≤ (determineCategory b t a).2.1 ∧ (determineCategory b t a).2.1 ≤ 1 := by
  cases hts : typeStage b with
  | some r =>
    have := typeStage_range hts
    simp only [determineCategory, hts]
    exact this
  | none =>
    cases hmv : maxByVal (categoryScores b t a) with
    | none =>
      simp only [determineCategory, hts, hmv]
      exact ⟨by simp, mkRat_one_tenth_bounds.1, mkRat_one_tenth_bounds.2⟩
    | some p =>
      have hmem := categoryScores_mem p (maxByVal_mem hmv)
      simp only [determineCategory, hts, hmv]
      refine ⟨⟨hmem.1.1, hmem.1.2⟩, ?_, ?_⟩
      · rw [qMin_eq]
        exact le_min hmem.2 (by norm_num)
      · rw [qMin_eq]
        exact min_le_right _ _

theorem categorizeFields_bounds (b t : List Char) (a : ℚ) :
    (1 ≤ (categorizeFields b t a).categoryId ∧ (categorizeFields b t a).categoryId ≤ 5) ∧
      0 ≤ (categorizeFields b t a).confidence ∧ (categorizeFields b t a).confidence ≤ 1 := by
  have hb := determineCategory_bounds b (upperS t) a
  cases hf : categories.find? fun ci => ci.cid = (determineCategory b (upperS t) a).1 with
  | some ci =>
    simp only [categorizeFields, hf]
    exact hb
  | none =>
    simp only [categorizeFields, hf]
    exact ⟨by simp, le_refl 0, by norm_num⟩

theorem errFallback_bounds :
    (1 ≤ errFallback.categoryId ∧ errFallback.categoryId ≤ 5) ∧
      0 ≤ errFallback.confidence ∧ errFallback.confidence ≤ 1 := by
  refine ⟨by simp [errFallback], by simp [errFallback], by simp [errFallback]⟩

theorem typeOnlyCat_bounds (b : List Char) :
    (1 ≤ (typeOnlyCat b).categoryId ∧ (typeOnlyCat b).categoryId ≤ 5) ∧
      0 ≤ (typeOnlyCat b).confidence ∧ (typeOnlyCat b).confidence ≤ 1 := by
  cases hts : typeStage b with
  | some r =>
    cases hf : categories.find? fun ci => ci.cid = r.1 with
    | some ci =>
      simp only [typeOnlyCat, hts, hf]
      exact typeStage_range hts
    | none =>
      simp only [typeOnlyCat, hts, hf]
      exact errFallback_bounds
  | none =>
    simp only [typeOnlyCat, hts]
    exact errFallback_bounds

theorem categorizeOut_bounds (o : CleanOut) :
    (1 ≤ (categorizeOut o).categoryId ∧ (categorizeOut o).categoryId ≤ 5) ∧
      0 ≤ (categorizeOut o).confidence ∧ (categorizeOut o).confidence ≤ 1 := by
  cases o with
  | cleaned t => exact categorizeFields_bounds _ _ _
  | failed d msg =>
    have hcases : (∃ b t a, categorizeOut (.failed d msg) = categorizeFields b t a) ∨
        (∃ b, categorizeOut (.failed d msg) = typeOnlyCat b) ∨
        categorizeOut (.failed d msg) = errFallback := by
      unfold categorizeOut
      split <;> (try split) <;>
        first
          | exact Or.inl ⟨_, _, _, rfl⟩
          | exact Or.inr (Or.inl ⟨_, rfl⟩)
          | exact Or.inr (Or.inr rfl)
    rcases hcases with ⟨b, t, a, h⟩ | ⟨b, h⟩ | h <;> rw [h]
    · exact categorizeFields_bounds _ _ _
    · exact typeOnlyCat_bounds _
    · exact errFallback_bounds

/-! ## Sample ambient values and helper lemmas for the claims -/

/-- A concrete `datetime.now()` value used where a claim is evaluated
at a specific input. -/
def sampleNow : PyDateTime := ⟨2026, 10, 12, 9, 0, 0, 0, by decide⟩

/-- A concrete `datetime.fromtimestamp` used alongside `sampleNow`. -/
def sampleFts (_ : ℚ) : PyDateTime := sampleNow

/-- A cleaned record with every required field non-empty and a
positive amount. -/
def sampleTxn : Txn :=
  ⟨"TXN_1", 100, "+250788123456", "+250788654321", "2024-01-01T00:00:00", "SEND",
   none, none, none, ⟨true, []⟩⟩

/-- The same record with amount exactly zero. -/
def zeroTxn : Txn :=
  ⟨"TXN_1", 0, "+250788123456", "+250788654321", "2024-01-01T00:00:00", "SEND",
   none, none, none, ⟨true, []⟩⟩

/-- A root element with no `sms` or `transaction` descendants. -/
def emptyRoot : Element := ⟨"empty", [], [], none⟩

theorem qLtB_eq_false (a b : ℚ) : qLtB a b = false ↔ b ≤ a := by
  rw [← not_lt]
  constructor
  · intro h hc
    rw [(qLtB_iff a b).mpr hc] at h
    exact Bool.noConfusion h
  · intro h
    cases hq : qLtB a b
    · rfl
    · exact absurd ((qLtB_iff a b).mp hq) h

theorem findSome?_mem {α β : Type} (f : α → Option β) :
    ∀ (l : List α) (b : β), l.findSome? f = some b → ∃ a ∈ l, f a = some b := by
  intro l
  induction l with
  | nil => intro b h; exact absurd h (by simp)
  | cons x xs ih =>
    intro b h
    cases hx : f x with
    | some c =>
      simp only [List.findSome?_cons, hx] at h
      cases h
      exact ⟨x, List.mem_cons_self x xs, hx⟩
    | none =>
      simp only [List.findSome?_cons, hx] at h
      obtain ⟨a, ha, hfa⟩ := ih b h
      exact ⟨a, List.mem_cons_of_mem x ha, hfa⟩

theorem firstTruthy_key_mem {d : List (String × Option String)} {keys : List String}
    {k v : String} (h : firstTruthy d keys = some (k, v)) : k ∈ keys := by
  obtain ⟨a, ha, hfa⟩ := findSome?_mem _ _ _ h
  cases hg : getR d a with
  | none => rw [hg] at hfa; exact absurd hfa (by simp)
  | some w0 =>
    cases w0 with
    | none => rw [hg] at hfa; exact absurd hfa (by simp)
    | some w =>
      simp only [hg] at hfa
      by_cases hw : w.isEmpty = true
      · rw [if_pos hw] at hfa
        exact absurd hfa (by simp)
      · rw [if_neg hw] at hfa
        simp only [Option.some.injEq, Prod.mk.injEq] at hfa
        rw [← hfa.1]
        exact ha

theorem cleanTransactionE_dict_ok (now : PyDateTime) (fts : ℚ → PyDateTime)
    (nowEpoch : Nat) (d : RawDict) :
    ∃ o, cleanTransactionE now fts nowEpoch (.dict d) = Except.ok o := by
  cases hci : cleanInner now fts nowEpoch d with
  | ok t => exact ⟨.cleaned t, by simp only [cleanTransactionE, hci]⟩
  | error e => exact ⟨.failed d e, by simp only [cleanTransactionE, hci]⟩

theorem transformGo_length (now : PyDateTime) (fts : ℚ → PyDateTime) (nowEpoch : Nat) :
    ∀ (rs : List PyRec) (i : Nat),
      (transformGo now fts nowEpoch i rs).1.length +
        (transformGo now fts nowEpoch i rs).2.length = rs.length := by
  intro rs
  induction rs with
  | nil => intro i; rfl
  | cons r rs ih =>
    intro i
    cases h : cleanTransactionE now fts nowEpoch r with
    | ok o =>
      have := ih (i + 1)
      simp only [transformGo, h, List.length_cons]
      omega
    | error e =>
      have := ih (i + 1)
      simp only [transformGo, h, List.length_cons]
      omega

theorem cleanBatchE_length (now : PyDateTime) (fts : ℚ → PyDateTime) (nowEpoch : Nat) :
    ∀ (rs : List PyRec) (os : List CleanOut),
      cleanBatchE now fts nowEpoch rs = .ok os → os.length = rs.length := by
  intro rs
  induction rs with
  | nil =>
    intro os h
    simp only [cleanBatchE] at h
    cases h
    rfl
  | cons r rs ih =>
    intro os h
    cases r with
    | dict d =>
      obtain ⟨o, ho⟩ := cleanTransactionE_dict_ok now fts nowEpoch d
      simp only [cleanBatchE, ho] at h
      cases hb : cleanBatchE now fts nowEpoch rs with
      | ok os2 =>
        rw [hb] at h
        simp only [Except.map] at h
        cases h
        simp only [List.length_cons, ih os2 hb]
      | error e2 =>
        rw [hb] at h
        simp only [Except.map] at h
        exact Except.noConfusion h
    | nondict =>
      simp only [cleanBatchE, cleanTransactionE] at h
      exact Except.noConfusion h

/-- The value `clean_batch` returns on the one-element batch holding
an empty dict, under the sample ambient time. -/
def sampleOut : List CleanOut :=
  [CleanOut.cleaned ⟨"TXN_0", 0, "Unknown", "Unknown", String.mk (isoChars sampleNow),
    "UNKNOWN", none, none, none,
    ⟨false, ["Invalid or zero amount", "Unknown sender", "Unknown receiver",
             "Unknown transaction type"]⟩⟩]

/-! ## The claims -/

/-- C1, counterexample: normalization is NOT idempotent for amounts.
`_clean_amount("1,500 RWF")` is `1500.0`; feeding its `str()`
rendering `"1500.0"` back yields `150.0`, because the decimal shape
`\d\x7b1,3\x7d(?:,\d\x7b3\x7d)*(?:\.\d\x7b2\x7d)?` matches only the
prefix `150` of `1500.0` (the fraction part requires exactly two
digits). -/
theorem C1_counterexample :
    cleanAmount "1,500 RWF" = 1500 ∧
      cleanAmount (String.mk (pyFloatStr (cleanAmount "1,500 RWF"))) = 150 ∧
      cleanAmount (String.mk (pyFloatStr (cleanAmount "1,500 RWF"))) ≠
        cleanAmount "1,500 RWF" := by
  refine ⟨by decide, by decide, by decide⟩

/-- C1, amended: the phone and timestamp normalizers are idempotent
(`_clean_phone_number` and `_clean_timestamp`, for any ambient
`datetime.now`/`fromtimestamp` on either run); the amount normalizer
is not. -/
theorem C1_phone_timestamp_idempotent :
    (∀ s : String, cleanPhone (cleanPhone s) = cleanPhone s) ∧
      ∀ (now now2 : PyDateTime) (fts fts2 : ℚ → PyDateTime) (s : String),
        cleanTimestamp now2 fts2 (cleanTimestamp now fts s) = cleanTimestamp now fts s := by
  constructor
  · intro s
    exact congrArg String.mk (cleanPhoneL_idem s.data)
  · intro now now2 fts fts2 s
    exact congrArg String.mk (cleanTimestampL_idem now now2 fts fts2 s.data)

/-- C2: every record returned by `categorize_transaction` — cleaned
records, handler-tagged records, and the error-fallback path alike —
carries `category_id ∈ {1,2,3,4,5}` and
`categorization_confidence ∈ [0,1]`. -/
theorem C2_category_ranges (o : CleanOut) :
    (categorizeOut o).categoryId ∈ ([1, 2, 3, 4, 5] : List Nat) ∧
      0 ≤ (categorizeOut o).confidence ∧ (categorizeOut o).confidence ≤ 1 := by
  obtain ⟨⟨h1, h5⟩, hc⟩ := categorizeOut_bounds o
  refine ⟨?_, hc⟩
  simp only [List.mem_cons, List.not_mem_nil, or_false]
  omega

/-- C3, counterexample: a body containing `airtime` does NOT always
categorize to category 1: the transaction-type table is scanned in
order DEPOSIT, WITHDRAWAL, AIRTIME, BILL_PAYMENT, so a body that also
contains a DEPOSIT pattern returns category 3 with method
`transaction_type_DEPOSIT`. -/
theorem C3_counterexample :
    substrCI "airtime".data "cash deposit airtime".data = true ∧
      categorizeFields "cash deposit airtime".data "SEND".data 100 =
        ⟨3, "Money Transfer", mkRat 9 10, "transaction_type_DEPOSIT"⟩ := by
  refine ⟨by decide, by decide⟩

/-- C3, amended: a body containing `airtime` that contains no DEPOSIT
pattern and no WITHDRAWAL pattern categorizes to category 1
(`Airtime Purchase`) with confidence 0.95 and method
`transaction_type_AIRTIME`, regardless of the transaction type and
the amount — the type-signature stage decides before any scoring
stage runs. -/
theorem C3_airtime_signature (body t : List Char) (a : ℚ)
    (h0 : substrCI "airtime".data body = true)
    (h1 : substrCI "bank deposit".data body = false)
    (h2 : substrCI "cash deposit".data body = false)
    (h3 : substrCI "deposited".data body = false)
    (h4 : substrCI "added to your account".data body = false)
    (h5 : substrCI "withdrawal".data body = false)
    (h6 : substrCI "cash out".data body = false)
    (h7 : substrCI "withdrawn".data body = false)
    (h8 : substrCI "cash withdrawal".data body = false) :
    categorizeFields body t a =
      ⟨1, "Airtime Purchase", mkRat 19 20, "transaction_type_AIRTIME"⟩ := by
  have hts : typeStage body = some (1, mkRat 19 20, "transaction_type_AIRTIME") := by
    simp only [typeStage, txnTypes, List.findSome?_cons, List.any_cons, List.any_nil,
      h0, h1, h2, h3, h4, h5, h6, h7, h8, Bool.or_self, Bool.or_false, Bool.false_or,
      Bool.true_or, Bool.false_eq_true, if_false, if_true]
    rfl
  simp [categorizeFields, determineCategory, hts, categories]

/-- C3, witness: the amended theorem evaluated at the body
`bought airtime`, type `SEND`, amount 999999 — the amount heuristic
alone would favor category 4, yet the signature stage decides. -/
theorem C3_witness :
    substrCI "airtime".data "bought airtime".data = true ∧
      categorizeFields "bought airtime".data "SEND".data 999999 =
        ⟨1, "Airtime Purchase", mkRat 19 20, "transaction_type_AIRTIME"⟩ :=
  ⟨by decide, C3_airtime_signature "bought airtime".data "SEND".data 999999 (by decide)
    (by decide) (by decide) (by decide) (by decide) (by decide) (by decide) (by decide)
    (by decide)⟩

/-- C4, counterexample: ties are NOT broken by ascending category id.
On body `store retail`, type `UNKNOWN`, amount 100, the score
dictionary holds category 5 and category 1 with the same score 0.2 in
that insertion order (5 from pattern scoring, 1 appended later by the
amount heuristic), and `_determine_category` returns category 5 — the
first maximum in insertion order, not the one with the smaller id. -/
theorem C4_counterexample :
    typeStage "store retail".data = none ∧
      categoryScores "store retail".data "UNKNOWN".data 100 =
        [(5, mkRat 1 5), (1, mkRat 1 5)] ∧
      determineCategory "store retail".data "UNKNOWN".data 100 =
        (5, mkRat 1 5, "pattern_matching") := by
  refine ⟨by decide, by decide, by decide⟩

/-- C4, amended: when no type signature fires, `_determine_category`
returns the global fallback `(3, 0.1, "default_fallback")` on an
empty score dictionary, and otherwise the FIRST maximum of the score
dictionary in its insertion order (every earlier entry strictly
smaller, every later entry no larger) with confidence clamped to 1
and method `pattern_matching`; in particular an empty body with type
`UNKNOWN` and amount 20000 gets the fallback. -/
theorem C4_first_max_or_fallback (b t : List Char) (a : ℚ)
    (hts : typeStage b = none) :
    (categoryScores b t a = [] →
        determineCategory b t a = (3, mkRat 1 10, "default_fallback")) ∧
      (∀ p, maxByVal (categoryScores b t a) = some p →
        determineCategory b t a = (p.1, qMin p.2 1, "pattern_matching") ∧
          ∃ m₁ m₂, categoryScores b t a = m₁ ++ p :: m₂ ∧
            (∀ z ∈ m₁, z.2 < p.2) ∧ ∀ z ∈ m₂, z.2 ≤ p.2) ∧
      determineCategory [] "UNKNOWN".data 20000 = (3, mkRat 1 10, "default_fallback") := by
  refine ⟨?_, ?_, by decide⟩
  · intro h0
    simp only [determineCategory, hts, h0, maxByVal]
  · intro p hp
    refine ⟨?_, maxByVal_spec hp⟩
    simp only [determineCategory, hts, hp]

/-- C4, witness: the amended theorem evaluated at the fallback record
(empty body, type `UNKNOWN`, amount 20000) and at the tied record of
the counterexample input. -/
theorem C4_witness :
    determineCategory [] "UNKNOWN".data 20000 = (3, mkRat 1 10, "default_fallback") ∧
      determineCategory "store retail".data "UNKNOWN".data 100 =
        ((5 : Nat), qMin (mkRat 1 5) 1, "pattern_matching") :=
  ⟨(C4_first_max_or_fallback [] "UNKNOWN".data 20000 (by decide)).1 (by decide),
   ((C4_first_max_or_fallback "store retail".data "UNKNOWN".data 100 (by decide)).2.1
      (5, mkRat 1 5) (by decide)).1⟩

/-- C5, counterexample: the final validation of `_clean_phone_number`
matches `^\+250\d\x7b9\x7d` as a PREFIX only, so the input
`+250788123456x` is returned unchanged — neither exactly `+250`
followed by nine digits nor the sentinel. -/
theorem C5_counterexample :
    cleanPhone "+250788123456x" = "+250788123456x" ∧
      canonicalFull "+250788123456x".data = false ∧
      cleanPhone "+250788123456x" ≠ "Unknown" := by
  refine ⟨by decide, by decide, by decide⟩

/-- C5, amended: `_clean_phone_number` returns the sentinel `Unknown`
or a string BEGINNING with `+250` and nine digits (possibly with
trailing characters); empty/whitespace-only input and case-insensitive
`unknown` map directly to the sentinel, as does a missing (`None`)
field value. -/
theorem C5_sentinel_or_prefix_canonical (p : List Char) :
    (cleanPhoneL p = unknownW ∨ validPrefix (cleanPhoneL p) = true) ∧
      ((stripS p).isEmpty = true → cleanPhoneL p = unknownW) ∧
      (lowerS p = unknownLC → cleanPhoneL p = unknownW) ∧
      cleanPhoneV PyVal.pyNone = Except.ok "Unknown" := by
  refine ⟨?_, ?_, ?_, rfl⟩
  · rcases cleanPhoneL_range p with h | ⟨h, -⟩
    · exact Or.inl h
    · exact Or.inr h
  · intro h
    unfold cleanPhoneL
    rw [if_pos (by simp [h])]
  · intro h
    unfold cleanPhoneL
    rw [if_pos (by simp [h])]

/-- C5, witness: the amended theorem evaluated at whitespace-only
input and at mixed-case `UnKnOwN`: both yield the sentinel. -/
theorem C5_witness :
    cleanPhoneL "  ".data = unknownW ∧ cleanPhoneL "UnKnOwN".data = unknownW :=
  ⟨(C5_sentinel_or_prefix_canonical "  ".data).2.1 (by decide),
   (C5_sentinel_or_prefix_canonical "UnKnOwN".data).2.2.1 (by decide)⟩

/-- C6, counterexample: a record with every field present and
non-empty, non-negative amount, and non-sentinel sender and receiver,
but amount exactly 0.0, is judged INVALID — the required-field loop
tests Python truthiness and `0.0` is falsy, so a zero amount blocks
validity, contrary to the claim. -/
theorem C6_counterexample :
    zeroTxn.tid ≠ "" ∧ zeroTxn.sender ≠ "" ∧ zeroTxn.receiver ≠ "" ∧
      zeroTxn.timestamp ≠ "" ∧ zeroTxn.amount = 0 ∧ 0 ≤ zeroTxn.amount ∧
      ¬(zeroTxn.sender = "Unknown" ∧ zeroTxn.receiver = "Unknown") ∧
      validateTransaction zeroTxn = false := by
  refine ⟨by decide, by decide, by decide, by decide, by decide, by decide, by decide,
    by decide⟩

/-- C6, amended: `_validate_transaction` returns `True` iff id,
sender, receiver and timestamp are non-empty, the amount is non-zero
and non-negative, and sender and receiver are not both the sentinel —
a zero amount is validity-blocking, not merely informational. -/
theorem C6_validity_characterization (t : Txn) :
    validateTransaction t = true ↔
      t.tid ≠ "" ∧ t.amount ≠ 0 ∧ t.sender ≠ "" ∧ t.receiver ≠ "" ∧ t.timestamp ≠ "" ∧
        0 ≤ t.amount ∧ ¬(t.sender = "Unknown" ∧ t.receiver = "Unknown") := by
  simp only [validateTransaction, Bool.and_eq_true, Bool.not_eq_true',
    decide_eq_false_iff_not, qLtB_eq_false, Bool.and_eq_false_iff]
  constructor
  · rintro ⟨⟨⟨⟨⟨⟨h1, h2⟩, h3⟩, h4⟩, h5⟩, h6⟩, h7⟩
    refine ⟨h1, h2, h3, h4, h5, h6, ?_⟩
    rintro ⟨hs, hr⟩
    rcases h7 with h | h
    · exact h hs
    · exact h hr
  · rintro ⟨h1, h2, h3, h4, h5, h6, h7⟩
    refine ⟨⟨⟨⟨⟨⟨h1, h2⟩, h3⟩, h4⟩, h5⟩, h6⟩, ?_⟩
    by_cases hs : t.sender = "Unknown"
    · exact Or.inr fun hr => h7 ⟨hs, hr⟩
    · exact Or.inl hs

/-- C6, witness: the characterization evaluated at a fully populated
record with positive amount. -/
theorem C6_witness : validateTransaction sampleTxn = true :=
  (C6_validity_characterization sampleTxn).mpr (by decide)

/-- C7, counterexample: for the DSA parser `parse_sms_xml`, malformed
XML is NOT propagated to the caller — the `except ET.ParseError`
handler returns an empty list, indistinguishable from a well-formed
document with zero records. -/
theorem C7_counterexample :
    dsaParse sampleNow (.error "not well-formed (invalid token)") = [] := rfl

/-- C7, amended: the ETL parser `_parse_xml_enhanced` re-raises a
parse error to the caller, while the DSA `parse_sms_xml` swallows it
and returns an empty list; for both, a well-formed document in which
record discovery finds no elements yields an empty sequence without
error. -/
theorem C7_error_propagation (now : PyDateTime) (e : String) (root : Element) :
    enhancedParse now (.error e) = .error e ∧
      dsaParse now (.error e) = [] ∧
      (findSmsETL root = [] → enhancedParse now (.ok root) = .ok []) ∧
      (findSmsDSA root = [] → dsaParse now (.ok root) = []) := by
  refine ⟨rfl, rfl, ?_, ?_⟩
  · intro h
    simp only [enhancedParse, h, List.enum_nil, List.filterMap_nil]
  · intro h
    simp only [dsaParse, h, List.enum_nil, List.map_nil]

/-- C7, witness: the amended theorem evaluated on a malformed
document and on a well-formed document whose root has no `sms` or
`transaction` descendants. -/
theorem C7_witness :
    enhancedParse sampleNow (.error "syntax error") = .error "syntax error" ∧
      dsaParse sampleNow (.error "syntax error") = [] ∧
      enhancedParse sampleNow (.ok emptyRoot) = .ok [] ∧
      dsaParse sampleNow (.ok emptyRoot) = [] := by
  have h := C7_error_propagation sampleNow "syntax error" emptyRoot
  refine ⟨h.1, h.2.1, h.2.2.1 ?_, h.2.2.2 ?_⟩
  · simp [findSmsETL, emptyRoot, orElseL, findDescL]
  · simp [findSmsDSA, emptyRoot, orElseL, findDescL]

/-- C8, counterexample: a batch of 2 records whose first record fails
(a non-dict, on which even the error handler raises) produces only 1
output record in `ETLPipeline.transform` — the `continue` in the
per-record handler DROPS the failed record instead of emitting it
with fallback values. -/
theorem C8_counterexample :
    (transformE sampleNow sampleFts 0 [PyRec.nondict, PyRec.dict []]).1.length = 1 ∧
      (transformE sampleNow sampleFts 0 [PyRec.nondict, PyRec.dict []]).2.length = 1 := by
  refine ⟨by decide, by decide⟩

/-- C8, amended: in `ETLPipeline.transform`, outputs and error entries
partition the batch — their counts sum to N, so each failed record is
dropped from the output and logged, and the batch never aborts; at
the `clean_batch` level (where the per-record handler re-emits dict
records), a batch that cleans without abort preserves the record
count. -/
theorem C8_batch_counts (now : PyDateTime) (fts : ℚ → PyDateTime) (nowEpoch : Nat)
    (rs : List PyRec) :
    (transformE now fts nowEpoch rs).1.length + (transformE now fts nowEpoch rs).2.length =
        rs.length ∧
      ∀ os, cleanBatchE now fts nowEpoch rs = .ok os → os.length = rs.length :=
  ⟨transformGo_length now fts nowEpoch rs 0,
   fun os h => cleanBatchE_length now fts nowEpoch rs os h⟩

/-- C8, witness: the amended theorem evaluated on the one-element
batch holding an empty dict: one output, no error entry, and
`clean_batch` returns exactly one record. -/
theorem C8_witness :
    (transformE sampleNow sampleFts 0 [PyRec.dict []]).1.length +
        (transformE sampleNow sampleFts 0 [PyRec.dict []]).2.length = 1 ∧
      sampleOut.length = 1 :=
  ⟨(C8_batch_counts sampleNow sampleFts 0 [PyRec.dict []]).1,
   (C8_batch_counts sampleNow sampleFts 0 [PyRec.dict []]).2 sampleOut (by decide)⟩

/-- C9, counterexample: `clean_transaction` does NOT terminate without
raising on every input shape: on a non-dict, the outer handler's own
`transaction["_validation"] = ...` item assignment raises `TypeError`. -/
theorem C9_counterexample :
    cleanTransactionE sampleNow sampleFts 0 PyRec.nondict =
      .error "TypeError: item assignment on non-dict" := rfl

/-- C9, amended: on every DICT input, `clean_transaction` returns
without raising, and when the internal cleaning failed, the returned
record is the original dict carrying a `_validation` report that is
invalid and records the failure message. -/
theorem C9_dict_total (now : PyDateTime) (fts : ℚ → PyDateTime) (nowEpoch : Nat)
    (d : RawDict) :
    ∃ o, cleanTransactionE now fts nowEpoch (.dict d) = Except.ok o ∧
      ∀ msg, o = CleanOut.failed d msg →
        outValidation o = ⟨false, ["Cleaning error: " ++ msg]⟩ := by
  cases hci : cleanInner now fts nowEpoch d with
  | ok t =>
    refine ⟨.cleaned t, by simp only [cleanTransactionE, hci], ?_⟩
    intro msg h
    exact CleanOut.noConfusion h
  | error e =>
    refine ⟨.failed d e, by simp only [cleanTransactionE, hci], ?_⟩
    intro msg h
    cases h
    rfl

/-- C9, witness: the amended theorem evaluated at a dict whose `Id`
field is a truthy non-string object (so `_clean_id` raises
internally and the handler fires). -/
theorem C9_witness :
    ∃ o, cleanTransactionE sampleNow sampleFts 0
          (.dict [("Id", PyVal.obj "X" true)]) = Except.ok o ∧
        ∀ msg, o = CleanOut.failed [("Id", PyVal.obj "X" true)] msg →
          outValidation o = ⟨false, ["Cleaning error: " ++ msg]⟩ :=
  C9_dict_total sampleNow sampleFts 0 [("Id", PyVal.obj "X" true)]

/-- C10, counterexample: when the value stored under the `receiver`
key is itself the string `receiver`, `_extract_receiver` returns a
string EQUAL to the raw receiver value — so "never equals the raw
value" fails (the rest of the claim, that the key NAME is returned,
holds and is the bug). -/
theorem C10_counterexample :
    getR [("receiver", some "receiver")] "receiver" = some (some "receiver") ∧
      extractReceiver [("receiver", some "receiver")] = "receiver" := by
  refine ⟨rfl, by decide⟩

/-- C10, amended: `_extract_receiver` always returns one of
`receiver`, `Receiver`, `to`, `Unknown`: the stripped NAME of the
first alias key present with a truthy value (not the value stored
under it — equality with the raw value occurs exactly when that value
coincides with the key name), or `Unknown` when no alias key has a
truthy value. -/
theorem C10_receiver_is_key_name (d : List (String × Option String)) :
    extractReceiver d ∈ (["receiver", "Receiver", "to", "Unknown"] : List String) ∧
      (∀ k v, firstTruthy d ["receiver", "Receiver", "to"] = some (k, v) →
        extractReceiver d = String.mk (stripS k.data)) ∧
      (firstTruthy d ["receiver", "Receiver", "to"] = none →
        extractReceiver d = "Unknown") := by
  refine ⟨?_, ?_, ?_⟩
  · cases hf : firstTruthy d ["receiver", "Receiver", "to"] with
    | none => simp [extractReceiver, hf]
    | some kv =>
      have hk := firstTruthy_key_mem (k := kv.1) (v := kv.2) (by rw [hf])
      simp only [extractReceiver, hf]
      have hcases : kv.1 = "receiver" ∨ kv.1 = "Receiver" ∨ kv.1 = "to" := by
        simpa using hk
      rcases hcases with h | h | h <;> rw [h] <;> decide
  · intro k v h
    simp only [extractReceiver, h]
  · intro h
    simp only [extractReceiver, h]

/-- C10, witness: the amended theorem evaluated at a dict holding a
phone number under `Receiver`, and at the empty dict: the parser
emits the key name `Receiver`, not the phone number, and `Unknown`
respectively. -/
theorem C10_witness :
    extractReceiver [("Receiver", some "+250788999000")] ∈
        (["receiver", "Receiver", "to", "Unknown"] : List String) ∧
      extractReceiver [("Receiver", some "+250788999000")] = "Receiver" ∧
      extractReceiver ([] : List (String × Option String)) = "Unknown" :=
  ⟨(C10_receiver_is_key_name [("Receiver", some "+250788999000")]).1,
   ((C10_receiver_is_key_name [("Receiver", some "+250788999000")]).2.1 "Receiver"
      "+250788999000" (by decide)).trans (by decide),
   (C10_receiver_is_key_name ([] : List (String × Option String))).2.2 (by decide)⟩

end Momo
